import Mathlib

/-!
Verification development for the openpond CLI agent runtime.

This file gives a shallow embedding, in Lean, of the components of the
repository that the specification's claims are about:

* the Tool Sandbox (`src/tools.ts`): path resolution against a workspace
  root, the read-before-write gate, the `read_file` / `write_file` /
  `apply_patch` tools, and the `executeLocalTool` dispatcher;
* the Frame Decoder (`src/stream.ts`): `normalizeDataFrames`,
  `extractUsage`, and `consumeStream` with its chunk buffering,
  per-line dispatch, and cancellation polls;
* the Session Driver (`ChatWorker` in the worker source):
  `sendMessage`, `handleToolCall`, `sendToolResult`, and the recursive
  tool-result resubmission loop.

Modelling conventions:

* JS strings are `List Char` (abbreviated `Str`); chunk/line splitting is
  done by an explicit recursive splitter mirroring `String.split`.
* The filesystem is a flat association list from resolved paths
  (component lists) to contents; `fs.readFile` failure is the `ENOENT`
  error case, `fs.writeFile` on a flat map always succeeds.
* External facilities that the code shells out to or fetches over the
  network (the `diff -u` subprocess, `git apply`, the tool manifest,
  `rg`, glob scanning, the deploy endpoints) are taken as function
  parameters; theorems quantify over them, which in particular lets us
  express "the external patch mechanism is never invoked" as
  "the result does not depend on it".
* Promise rejection / thrown exceptions are the `Except.error` case;
  a `try`/`catch` is a `match` on the `Except`.
-/

namespace OpenPond

/-- JS strings, modelled as lists of characters. -/
abbrev Str := List Char

/-- A fully resolved filesystem path: its list of components. -/
abbrev FPath := List Str

/-- The workspace filesystem: a flat map from resolved paths to file
contents, as an association list (first binding wins; `fsSet` keeps it
duplicate-free). -/
abbrev FS := List (FPath × Str)

/-- Look a path up in the filesystem. -/
def fsGet (fs : FS) (p : FPath) : Option Str :=
  match fs with
  | [] => none
  | (q, c) :: rest => if q = p then some c else fsGet rest p

/-- Write a path in the filesystem (replace or append). -/
def fsSet (fs : FS) (p : FPath) (c : Str) : FS :=
  match fs with
  | [] => [(p, c)]
  | (q, d) :: rest => if q = p then (p, c) :: rest else (q, d) :: fsSet rest p c

/-! ## Path resolution (`path.resolve` / `path.relative` on POSIX)

`resolvePath` in `src/tools.ts` resolves the argument against the
workspace root, takes the relative form, and rejects it when it starts
with `".."` (on POSIX, `path.relative` between two absolute paths never
returns an absolute path, so the `path.isAbsolute` disjunct of the
source's check cannot fire and the model's escape test is the `".."`
string prefix alone). The workspace root is given directly as a
normalized absolute component list. -/

/-- Split a character list at every occurrence of a separator, keeping
empty segments — the semantics of JS `String.prototype.split` with a
single-character separator. Returned as (all complete segments before
the last separator, the final segment). -/
def splitLR (sep : Char) : Str → List Str × Str
  | [] => ([], [])
  | c :: cs =>
    let r := splitLR sep cs
    if c = sep then ([] :: r.1, r.2)
    else
      match r with
      | ([], rest) => ([], c :: rest)
      | (l :: ls, rest) => ((c :: l) :: ls, rest)

/-- All segments of a split, in order (JS `split` result). -/
def splitAll (sep : Char) (s : Str) : List Str :=
  (splitLR sep s).1 ++ [(splitLR sep s).2]

/-- Normalize an absolute path's component list: drop empty and `"."`
segments, make `".."` pop the last kept component (popping at the root
is a no-op, as for POSIX absolute paths). -/
def normAbs (cs : List Str) : FPath :=
  cs.foldl
    (fun acc c =>
      if c = [] ∨ c = ['.'] then acc
      else if c = ['.', '.'] then acc.dropLast
      else acc ++ [c])
    []

/-- `path.relative` between two absolute, normalized component lists:
strip the common prefix, then one `".."` per remaining `from`
component followed by the remaining `to` components. -/
def relComps : FPath → FPath → List Str
  | [], t => t
  | f, [] => f.map fun _ => ['.', '.']
  | a :: f, b :: t =>
    if a = b then relComps f t
    else ((a :: f).map fun _ => ['.', '.']) ++ b :: t

/-- Does the relative form escape the root: its string rendering starts
with `".."` — i.e. its first component has `".."` as a character
prefix (components never contain `'/'`). -/
def startsDotDot : List Str → Bool
  | [] => false
  | c :: _ => ['.', '.'].isPrefixOf c

/-- `path.resolve(rootDir, p)`: parse `p` into components (absolute iff
it starts with `'/'`) and normalize against the root. -/
def resolveAbs (root : FPath) (p : Str) : FPath :=
  if p.head? = some '/' then normAbs (splitAll '/' p)
  else normAbs (root ++ splitAll '/' p)

/-- `resolvePath` from `src/tools.ts`: resolve the raw path argument
against the root, reject it when its relative form escapes the root. -/
def resolvePath (root : FPath) (p : Str) : Except Str FPath :=
  if startsDotDot (relComps root (resolveAbs root p)) then
    Except.error "Path is outside workspace".data
  else Except.ok (resolveAbs root p)

/-! ## The sandbox tools -/

/-- The per-session mutable sandbox state threaded through the tools:
the workspace filesystem and the `ReadSet` of resolved paths read so
far. -/
structure SandboxSt where
  fs : FS
  readSet : List FPath
deriving DecidableEq

/-- `ensureReadBeforeWrite` from `src/tools.ts`. -/
def ensureReadBeforeWrite (readSet : List FPath) (rp : FPath) : Except Str Unit :=
  if rp ∈ readSet then Except.ok ()
  else Except.error "File must be read before write/patch".data

/-- Output of `read_file`. -/
structure ReadOut where
  path : Str
  content : Str
deriving DecidableEq

/-- `readFileTool`: resolve, read, record the resolved path in the
`ReadSet` (the best-effort LSP notification is external and swallowed,
so it is omitted). Errors leave the state unchanged. -/
def readFileTool (root : FPath) (st : SandboxSt) (p : Str) :
    Except Str ReadOut × SandboxSt :=
  if p = [] then (Except.error "path is required".data, st)
  else
    match resolvePath root p with
    | Except.error e => (Except.error e, st)
    | Except.ok rp =>
      match fsGet st.fs rp with
      | none => (Except.error "ENOENT".data, st)
      | some content =>
        (Except.ok ⟨p, content⟩, { st with readSet := rp :: st.readSet })

/-- Output of `write_file`. -/
structure WriteOut where
  path : Str
  created : Bool
  diff : Str
  before : Str
  after : Str
deriving DecidableEq

/-- `writeFileTool`: resolve, check the read-before-write gate when the
file already exists, replace the content, return the before/after pair
plus the unified diff computed by the external diff facility `udiff`. -/
def writeFileTool (udiff : Str → Str → Str → Str) (root : FPath)
    (st : SandboxSt) (p content : Str) : Except Str WriteOut × SandboxSt :=
  if p = [] then (Except.error "path is required".data, st)
  else
    match resolvePath root p with
    | Except.error e => (Except.error e, st)
    | Except.ok rp =>
      match fsGet st.fs rp with
      | some previous =>
        match ensureReadBeforeWrite st.readSet rp with
        | Except.error e => (Except.error e, st)
        | Except.ok _ =>
          (Except.ok ⟨p, false, udiff previous content p, previous, content⟩,
           { st with fs := fsSet st.fs rp content })
      | none =>
        (Except.ok ⟨p, true, udiff [] content p, [], content⟩,
         { st with fs := fsSet st.fs rp content })

/-- Leading/trailing-whitespace trim (JS `String.prototype.trim`). -/
def jsTrim (s : Str) : Str :=
  let ws := fun c => c = ' ' ∨ c = '\t' ∨ c = '\r' ∨ c = '\n'
  ((s.dropWhile ws).reverse.dropWhile ws).reverse

/-- `parsePatchPaths`: the `b/`-side paths of the `+++ ` headers of a
unified diff. -/
def parsePatchPaths (patchText : Str) : List Str :=
  (splitAll '\n' patchText).filterMap fun line =>
    if ['+', '+', '+', ' '].isPrefixOf line then
      let value := jsTrim (line.drop 4)
      if ['b', '/'].isPrefixOf value then some (value.drop 2) else none
    else none

/-- The pre-patch loop of `applyPatchTool`: per touched path, resolve,
enforce read-before-write, and capture the pre-patch content. Runs
before the external patch mechanism is consulted. -/
def patchPre (root : FPath) (st : SandboxSt) :
    List Str → Except Str (List (Str × FPath × Str))
  | [] => Except.ok []
  | p :: rest =>
    match resolvePath root p with
    | Except.error e => Except.error e
    | Except.ok rp =>
      match ensureReadBeforeWrite st.readSet rp with
      | Except.error e => Except.error e
      | Except.ok _ =>
        match fsGet st.fs rp with
        | none => Except.error "ENOENT".data
        | some content => (patchPre root st rest).map ((p, rp, content) :: ·)

/-- One per-file entry of a successful `apply_patch` result. -/
structure PatchFileOut where
  path : Str
  before : Str
  after : Str
  diff : Str
deriving DecidableEq

/-- The post-patch loop of `applyPatchTool`: re-read each touched path
from the patched filesystem and compute the per-file unified diff. -/
def patchPost (udiff : Str → Str → Str → Str) (fs' : FS) :
    List (Str × FPath × Str) → Except Str (List PatchFileOut)
  | [] => Except.ok []
  | (p, rp, before) :: rest =>
    match fsGet fs' rp with
    | none => Except.error "ENOENT".data
    | some after =>
      (patchPost udiff fs' rest).map (⟨p, before, after, udiff before after p⟩ :: ·)

/-- `applyPatchTool`: parse the touched paths, run the pre-patch checks
and capture, invoke the external patch facility `gapply`
(`git apply`; `none` is a nonzero exit), then compute the per-file
results. A post-loop read failure surfaces as an error but leaves the
filesystem patched, as in the source. -/
def applyPatchTool (udiff : Str → Str → Str → Str)
    (gapply : Str → FS → Option FS) (root : FPath) (st : SandboxSt)
    (patchText : Str) : Except Str (List PatchFileOut) × SandboxSt :=
  if patchText = [] then (Except.error "patch is required".data, st)
  else
    let touched := parsePatchPaths patchText
    match patchPre root st touched with
    | Except.error e => (Except.error e, st)
    | Except.ok beforeList =>
      match gapply patchText st.fs with
      | none => (Except.error "git apply failed".data, st)
      | some fs' =>
        match patchPost udiff fs' beforeList with
        | Except.error e => (Except.error e, { st with fs := fs' })
        | Except.ok files => (Except.ok files, { st with fs := fs' })

/-! ## The tool dispatcher (`executeLocalTool`) -/

/-- The union of tool outputs. -/
inductive ToolOutput where
  | read (o : ReadOut)
  | listf (pattern : Str) (found : List Str)
  | grep (query pattern found : Str)
  | patch (files : List PatchFileOut)
  | write (o : WriteOut)
  | deploy (commitSha deploymentId : Str)
deriving DecidableEq

/-- A tool call's name and (flattened) arguments: each tool reads its
arguments with `String(args.x || default)`, so a missing argument is
the default value. -/
structure ToolCall where
  name : Str
  path : Str := []
  content : Str := []
  patch : Str := []
  query : Str := []
  pattern : Str := []
  message : Str := []

/-- The structured result `executeLocalTool` always returns. -/
structure ToolExecutionResult where
  ok : Bool
  output : Option ToolOutput := none
  error : Option Str := none
deriving DecidableEq

/-- The external facilities the sandbox depends on: the tool-manifest
fetch (cached per process), the `diff -u` subprocess, `git apply`, the
glob scanner, the `rg` subprocess, and the commit/deploy endpoints
(together with `git status`, whose `Deletion not supported` /
`No changes detected` failures it raises). Theorems quantify over
them. -/
structure ToolExts where
  manifest : Except Str (List Str)
  udiff : Str → Str → Str → Str
  gapply : Str → FS → Option FS
  listExec : Str → Except Str (List Str)
  grepExec : Str → Str → Except Str Str
  deployExec : Str → FS → Except Str (Str × Str)

/-- `listFilesTool`: default pattern, external glob scan. -/
def listFilesTool (exts : ToolExts) (st : SandboxSt) (pattern : Str) :
    Except Str ToolOutput × SandboxSt :=
  let pat := if pattern = [] then "**/*".data else pattern
  match exts.listExec pat with
  | Except.error e => (Except.error e, st)
  | Except.ok ms => (Except.ok (ToolOutput.listf pat ms), st)

/-- `grepTool`: requires a query, shells out to `rg`. -/
def grepTool (exts : ToolExts) (st : SandboxSt) (query pattern : Str) :
    Except Str ToolOutput × SandboxSt :=
  let pat := if pattern = [] then ['.'] else pattern
  if query = [] then (Except.error "query is required".data, st)
  else
    match exts.grepExec query pat with
    | Except.error e => (Except.error e, st)
    | Except.ok out => (Except.ok (ToolOutput.grep query pat out), st)

/-- `deployTool`: default message, snapshot + commit + deploy through
the external facility. -/
def deployTool (exts : ToolExts) (st : SandboxSt) (message : Str) :
    Except Str ToolOutput × SandboxSt :=
  let msg := if message = [] then "Deploy from TUI".data else message
  match exts.deployExec msg st.fs with
  | Except.error e => (Except.error e, st)
  | Except.ok (sha, dep) => (Except.ok (ToolOutput.deploy sha dep), st)

/-- The `switch (call.name)` body of `executeLocalTool`: dispatch to the
tool implementations. Any `Except.error` it returns is an exception
raised by the underlying operation. -/
def dispatchTool (exts : ToolExts) (root : FPath) (st : SandboxSt)
    (call : ToolCall) : Except Str ToolOutput × SandboxSt :=
  if call.name = "read_file".data then
    match readFileTool root st call.path with
    | (Except.error e, st') => (Except.error e, st')
    | (Except.ok o, st') => (Except.ok (ToolOutput.read o), st')
  else if call.name = "list_files".data then
    listFilesTool exts st call.pattern
  else if call.name = "grep".data then
    grepTool exts st call.query call.pattern
  else if call.name = "apply_patch".data then
    match applyPatchTool exts.udiff exts.gapply root st call.patch with
    | (Except.error e, st') => (Except.error e, st')
    | (Except.ok files, st') => (Except.ok (ToolOutput.patch files), st')
  else if call.name = "write_file".data then
    match writeFileTool exts.udiff root st call.path call.content with
    | (Except.error e, st') => (Except.error e, st')
    | (Except.ok o, st') => (Except.ok (ToolOutput.write o), st')
  else if call.name = "deploy".data then
    deployTool exts st call.message
  else
    (Except.error ("Unknown tool: ".data ++ call.name), st)

/-- `executeLocalTool`: fetch the allow-list, reject names outside it,
dispatch, and convert every raised error into a structured
`{ok := false, error}` result — the whole body is wrapped in a
`try`/`catch`, so the function itself never raises. (The source's
`default` case returns the `Unknown tool` failure directly rather than
raising it; folding it into `dispatchTool`'s error case is
observationally identical.) -/
def executeLocalTool (exts : ToolExts) (root : FPath) (st : SandboxSt)
    (call : ToolCall) : ToolExecutionResult × SandboxSt :=
  match exts.manifest with
  | Except.error e => (⟨false, none, some e⟩, st)
  | Except.ok allowed =>
    if call.name ∉ allowed then
      (⟨false, none, some ("Tool not in manifest: ".data ++ call.name)⟩, st)
    else
      match dispatchTool exts root st call with
      | (Except.error e, st') => (⟨false, none, some e⟩, st')
      | (Except.ok out, st') => (⟨true, some out, none⟩, st')

/-! ## Sandbox lemmas -/

theorem resolvePath_error_msg {root : FPath} {p e : Str}
    (h : resolvePath root p = Except.error e) :
    e = "Path is outside workspace".data := by
  unfold resolvePath at h
  split at h
  · exact ((Except.error.injEq _ _).mp h).symm
  · exact absurd h (by simp)

theorem patchPre_error_of_escape {root : FPath} {st : SandboxSt} {q e : Str}
    {touched : List Str} (hq : q ∈ touched)
    (hr : resolvePath root q = Except.error e) :
    ∃ m, patchPre root st touched = Except.error m := by
  induction touched with
  | nil => cases hq
  | cons p rest ih =>
    rcases List.mem_cons.mp hq with rfl | hmem
    · exact ⟨e, by simp [patchPre, hr]⟩
    · cases hp : resolvePath root p with
      | error e' => exact ⟨e', by simp [patchPre, hp]⟩
      | ok rp =>
        cases he : ensureReadBeforeWrite st.readSet rp with
        | error e' => exact ⟨e', by simp [patchPre, hp, he]⟩
        | ok u =>
          cases hg : fsGet st.fs rp with
          | none => exact ⟨"ENOENT".data, by simp [patchPre, hp, he, hg]⟩
          | some content =>
            obtain ⟨m, hm⟩ := ih hmem
            exact ⟨m, by simp [patchPre, hp, he, hg, hm, Except.map]⟩

theorem patchPre_error_of_unread {root : FPath} {st : SandboxSt} {q : Str}
    {rq : FPath} {touched : List Str} (hq : q ∈ touched)
    (hr : resolvePath root q = Except.ok rq) (hnr : rq ∉ st.readSet) :
    ∃ m, patchPre root st touched = Except.error m := by
  induction touched with
  | nil => cases hq
  | cons p rest ih =>
    cases hp : resolvePath root p with
    | error e' => exact ⟨e', by simp [patchPre, hp]⟩
    | ok rp =>
      cases he : ensureReadBeforeWrite st.readSet rp with
      | error e' => exact ⟨e', by simp [patchPre, hp, he]⟩
      | ok u =>
        cases hg : fsGet st.fs rp with
        | none => exact ⟨"ENOENT".data, by simp [patchPre, hp, he, hg]⟩
        | some content =>
          rcases List.mem_cons.mp hq with rfl | hmem
          · rw [hp] at hr
            cases hr
            unfold ensureReadBeforeWrite at he
            rw [if_neg hnr] at he
            cases he
          · obtain ⟨m, hm⟩ := ih hmem
            exact ⟨m, by simp [patchPre, hp, he, hg, hm, Except.map]⟩

theorem applyPatch_error_of_pre {udiff : Str → Str → Str → Str}
    {gapply : Str → FS → Option FS} {root : FPath} {st : SandboxSt}
    {patchText m : Str}
    (hne : patchText ≠ [])
    (hpre : patchPre root st (parsePatchPaths patchText) = Except.error m) :
    applyPatchTool udiff gapply root st patchText = (Except.error m, st) := by
  simp [applyPatchTool, hne, hpre]

theorem parsePatchPaths_ne_nil {patchText : Str} {q : Str}
    (hq : q ∈ parsePatchPaths patchText) : patchText ≠ [] := by
  intro h
  subst h
  simp [parsePatchPaths, splitAll, splitLR, jsTrim, List.isPrefixOf] at hq

theorem patchPre_ok_mem {root : FPath} {st : SandboxSt} {touched : List Str}
    {bl : List (Str × FPath × Str)}
    (h : patchPre root st touched = Except.ok bl) :
    bl.length = touched.length ∧
      ∀ x ∈ bl, resolvePath root x.1 = Except.ok x.2.1 ∧
        fsGet st.fs x.2.1 = some x.2.2 := by
  induction touched generalizing bl with
  | nil =>
    simp [patchPre] at h
    subst h
    simp
  | cons p rest ih =>
    cases hp : resolvePath root p with
    | error e' => simp [patchPre, hp] at h
    | ok rp =>
      cases he : ensureReadBeforeWrite st.readSet rp with
      | error e' => simp [patchPre, hp, he] at h
      | ok u =>
        cases hg : fsGet st.fs rp with
        | none => simp [patchPre, hp, he, hg] at h
        | some content =>
          cases hrest : patchPre root st rest with
          | error e' => simp [patchPre, hp, he, hg, hrest, Except.map] at h
          | ok bl' =>
            simp [patchPre, hp, he, hg, hrest, Except.map] at h
            subst h
            obtain ⟨hlen, hmem⟩ := ih hrest
            refine ⟨by simp [hlen], ?_⟩
            intro x hx
            rcases List.mem_cons.mp hx with rfl | hx'
            · exact ⟨hp, hg⟩
            · exact hmem x hx'

theorem patchPost_ok_mem {udiff : Str → Str → Str → Str} {fs' : FS}
    {bl : List (Str × FPath × Str)} {files : List PatchFileOut}
    (h : patchPost udiff fs' bl = Except.ok files) :
    files.length = bl.length ∧
      ∀ f ∈ files, ∃ x ∈ bl, f.path = x.1 ∧ f.before = x.2.2 ∧
        fsGet fs' x.2.1 = some f.after ∧ f.diff = udiff f.before f.after f.path := by
  induction bl generalizing files with
  | nil =>
    simp [patchPost] at h
    subst h
    simp
  | cons x rest ih =>
    obtain ⟨p, rp, before⟩ := x
    cases hg : fsGet fs' rp with
    | none => simp [patchPost, hg] at h
    | some after =>
      cases hrest : patchPost udiff fs' rest with
      | error e' => simp [patchPost, hg, hrest, Except.map] at h
      | ok files' =>
        simp [patchPost, hg, hrest, Except.map] at h
        subst h
        obtain ⟨hlen, hmem⟩ := ih hrest
        refine ⟨by simp [hlen], ?_⟩
        intro f hf
        rcases List.mem_cons.mp hf with rfl | hf'
        · exact ⟨(p, rp, before), List.mem_cons_self _ _, rfl, rfl, hg, rfl⟩
        · obtain ⟨y, hy, hys⟩ := hmem f hf'
          exact ⟨y, List.mem_cons_of_mem _ hy, hys⟩

theorem fsGet_fsSet_self (fs : FS) (p : FPath) (c : Str) :
    fsGet (fsSet fs p c) p = some c := by
  induction fs with
  | nil => simp [fsSet, fsGet]
  | cons hd rest ih =>
    obtain ⟨q, d⟩ := hd
    by_cases h : q = p
    · simp [fsSet, fsGet, h]
    · simp [fsSet, fsGet, h, ih]

/-! ## Claim C1 — path confinement -/

/-- C1. Path confinement: a tool call whose path argument, resolved
against the workspace root, escapes the root (`resolvePath` rejects
it) fails with the path-violation error and performs no filesystem
mutation: `read_file` and `write_file` return exactly that error with
the sandbox state unchanged, and `apply_patch` whose touched paths
include such a path fails (with the path-violation error itself when
the escaping path is the first touched one) while the state stays
unchanged for every possible behavior of the external patch facility —
i.e. `git apply` is never invoked. -/
theorem c1_path_confinement (root : FPath) (st : SandboxSt) (p e : Str)
    (hesc : resolvePath root p = Except.error e) (hne : p ≠ []) :
    readFileTool root st p = (Except.error "Path is outside workspace".data, st) ∧
    (∀ udiff c, writeFileTool udiff root st p c =
      (Except.error "Path is outside workspace".data, st)) ∧
    (∀ udiff gapply patchText, p ∈ parsePatchPaths patchText →
      ∃ m, applyPatchTool udiff gapply root st patchText = (Except.error m, st)) ∧
    (∀ udiff gapply patchText rest, parsePatchPaths patchText = p :: rest →
      applyPatchTool udiff gapply root st patchText =
        (Except.error "Path is outside workspace".data, st)) := by
  have hmsg := resolvePath_error_msg hesc
  subst hmsg
  refine ⟨?_, ?_, ?_, ?_⟩
  · simp [readFileTool, hne, hesc]
  · intro udiff c
    simp [writeFileTool, hne, hesc]
  · intro udiff gapply patchText hp
    obtain ⟨m, hm⟩ := patchPre_error_of_escape hp hesc
    exact ⟨m, applyPatch_error_of_pre (parsePatchPaths_ne_nil hp) hm⟩
  · intro udiff gapply patchText rest hps
    have hp : p ∈ parsePatchPaths patchText := by rw [hps]; exact List.mem_cons_self _ _
    have hpre : patchPre root st (parsePatchPaths patchText) =
        Except.error "Path is outside workspace".data := by
      rw [hps]
      simp [patchPre, hesc]
    exact applyPatch_error_of_pre (parsePatchPaths_ne_nil hp) hpre

/-- C1 witness: at the root `/work` with an empty filesystem, the spec's
own example `write_file("../../etc/passwd", ...)` resolves outside the
root and fails with the path-violation error, mutating nothing. -/
theorem c1_path_confinement_witness :
    resolvePath ["work".data] "../../etc/passwd".data =
      Except.error "Path is outside workspace".data ∧
    writeFileTool (fun _ _ _ => []) ["work".data] ⟨[], []⟩
        "../../etc/passwd".data "x".data =
      (Except.error "Path is outside workspace".data, ⟨[], []⟩) :=
  ⟨rfl,
   (c1_path_confinement ["work".data] ⟨[], []⟩ "../../etc/passwd".data
      "Path is outside workspace".data rfl (by decide)).2.1
     (fun _ _ _ => []) "x".data⟩

/-! ## Claim C2 — read-before-write (corrected) -/

/-- C2 counterexample. The claim states that `write_file` on a
not-yet-existing path `P` *always* succeeds without a prior read, for
every path `P`. It fails at `P = "../x"` against root `/r` with an
empty filesystem (so `P` certainly does not exist): the call is
rejected by path confinement instead of succeeding. -/
theorem c2_read_before_write_counterexample :
    (writeFileTool (fun _ _ _ => []) ["r".data] ⟨[], []⟩ "../x".data "c".data).1 =
      Except.error "Path is outside workspace".data := rfl

/-- C2 (amended). For every path `P`: `write_file` (and `apply_patch`)
on an existing `P` whose resolved form is not in the session's
`ReadSet` fails with the read-before-write precondition error and
leaves `P`'s content (indeed the whole state) unchanged; and
`write_file` on a non-empty `P` that resolves inside the root and does
not yet exist succeeds without any prior read, creating the file. -/
theorem c2_read_before_write (udiff : Str → Str → Str → Str) (root : FPath)
    (st : SandboxSt) (p c : Str) (rp : FPath) (hne : p ≠ [])
    (hres : resolvePath root p = Except.ok rp) :
    ((fsGet st.fs rp).isSome → rp ∉ st.readSet →
      writeFileTool udiff root st p c =
        (Except.error "File must be read before write/patch".data, st)) ∧
    (fsGet st.fs rp = none →
      writeFileTool udiff root st p c =
        (Except.ok ⟨p, true, udiff [] c p, [], c⟩,
         { st with fs := fsSet st.fs rp c })) ∧
    (∀ gapply patchText q rq, q ∈ parsePatchPaths patchText →
      resolvePath root q = Except.ok rq → rq ∉ st.readSet →
      ∃ m, applyPatchTool udiff gapply root st patchText = (Except.error m, st)) := by
  refine ⟨?_, ?_, ?_⟩
  · intro hex hnr
    cases hg : fsGet st.fs rp with
    | none => rw [hg] at hex; cases hex
    | some prev =>
      have he : ensureReadBeforeWrite st.readSet rp =
          Except.error "File must be read before write/patch".data := by
        unfold ensureReadBeforeWrite
        rw [if_neg hnr]
      simp [writeFileTool, hne, hres, hg, he]
  · intro hg
    simp [writeFileTool, hne, hres, hg]
  · intro gapply patchText q rq hq hresq hnr
    obtain ⟨m, hm⟩ := patchPre_error_of_unread hq hresq hnr
    exact ⟨m, applyPatch_error_of_pre (parsePatchPaths_ne_nil hq) hm⟩

/-- C2 witness: against root `/r`, a write to the existing but unread
`a.txt` fails with the read-before-write error, and the same call on a
fresh filesystem (where `a.txt` does not exist) succeeds and creates
the file. -/
theorem c2_read_before_write_witness :
    writeFileTool (fun _ _ _ => []) ["r".data]
        ⟨[(["r".data, "a.txt".data], "old".data)], []⟩ "a.txt".data "c".data =
      (Except.error "File must be read before write/patch".data,
       ⟨[(["r".data, "a.txt".data], "old".data)], []⟩) ∧
    writeFileTool (fun _ _ _ => []) ["r".data] ⟨[], []⟩ "a.txt".data "c".data =
      (Except.ok ⟨"a.txt".data, true, [], [], "c".data⟩,
       ⟨[(["r".data, "a.txt".data], "c".data)], []⟩) :=
  ⟨(c2_read_before_write (fun _ _ _ => []) ["r".data]
      ⟨[(["r".data, "a.txt".data], "old".data)], []⟩ "a.txt".data "c".data
      ["r".data, "a.txt".data] (by decide) rfl).1 (by decide) (by decide),
   (c2_read_before_write (fun _ _ _ => []) ["r".data] ⟨[], []⟩ "a.txt".data
      "c".data ["r".data, "a.txt".data] (by decide) rfl).2.1 (by decide)⟩

/-! ## Claim C7 — apply_patch ordering and structured diffs -/

/-- C7. `apply_patch` touching an existing path absent from the
`ReadSet` fails with the whole sandbox state unchanged, and the
failure (its message included) is independent of the external patch
facility — so `git apply` is never invoked and no file is partially
patched. When `apply_patch` succeeds, the new filesystem is exactly
the one produced by the patch facility, and the result holds one entry
per touched path whose `before` is the captured pre-patch content,
whose `after` is the post-patch content, and whose `diff` is the
structurally computed unified diff of that pair — not the raw patch
text. -/
theorem c7_apply_patch (udiff : Str → Str → Str → Str)
    (gapply : Str → FS → Option FS) (root : FPath) (st : SandboxSt)
    (patchText : Str) :
    ((∃ q rq, q ∈ parsePatchPaths patchText ∧
        resolvePath root q = Except.ok rq ∧ (fsGet st.fs rq).isSome ∧
        rq ∉ st.readSet) →
      ∃ m, ∀ g2 : Str → FS → Option FS,
        applyPatchTool udiff g2 root st patchText = (Except.error m, st)) ∧
    (∀ files st', applyPatchTool udiff gapply root st patchText =
        (Except.ok files, st') →
      ∃ fs', gapply patchText st.fs = some fs' ∧ st' = { st with fs := fs' } ∧
        files.length = (parsePatchPaths patchText).length ∧
        ∀ f ∈ files, f.diff = udiff f.before f.after f.path ∧
          ∃ rf, resolvePath root f.path = Except.ok rf ∧
            fsGet st.fs rf = some f.before ∧ fsGet fs' rf = some f.after) := by
  constructor
  · rintro ⟨q, rq, hq, hres, -, hnr⟩
    obtain ⟨m, hm⟩ := patchPre_error_of_unread hq hres hnr
    exact ⟨m, fun g2 => applyPatch_error_of_pre (parsePatchPaths_ne_nil hq) hm⟩
  · intro files st' h
    by_cases hne : patchText = []
    · simp [applyPatchTool, hne] at h
    · cases hpre : patchPre root st (parsePatchPaths patchText) with
      | error e => simp [applyPatchTool, hne, hpre] at h
      | ok bl =>
        cases hg : gapply patchText st.fs with
        | none => simp [applyPatchTool, hne, hpre, hg] at h
        | some fs' =>
          cases hpost : patchPost udiff fs' bl with
          | error e => simp [applyPatchTool, hne, hpre, hg, hpost] at h
          | ok files' =>
            simp [applyPatchTool, hne, hpre, hg, hpost] at h
            obtain ⟨hfiles, hst⟩ := h
            subst hfiles
            refine ⟨fs', rfl, hst.symm, ?_, ?_⟩
            · obtain ⟨hl1, -⟩ := patchPost_ok_mem hpost
              obtain ⟨hl2, -⟩ := patchPre_ok_mem hpre
              rw [hl1, hl2]
            · intro f hf
              obtain ⟨-, hmem⟩ := patchPost_ok_mem hpost
              obtain ⟨-, hpremem⟩ := patchPre_ok_mem hpre
              obtain ⟨x, hx, hpath, hbefore, hafter, hdiff⟩ := hmem f hf
              obtain ⟨hresx, hgetx⟩ := hpremem x hx
              refine ⟨hdiff, x.2.1, ?_, ?_, hafter⟩
              · rw [hpath]; exact hresx
              · rw [hbefore]; exact hgetx

/-- C7 witness: a patch touching the existing, unread `a.txt` fails
with the state unchanged for an arbitrary patch facility; the same
patch on a session that has read `a.txt` succeeds and returns the
structurally computed diff entry. -/
theorem c7_apply_patch_witness :
    (applyPatchTool (fun _ _ _ => "D".data) (fun _ fs => some fs) ["r".data]
        ⟨[(["r".data, "a.txt".data], "old".data)], []⟩
        "+++ b/a.txt\n".data).1.isOk = false ∧
    applyPatchTool (fun _ _ _ => "D".data) (fun _ fs => some fs) ["r".data]
        ⟨[(["r".data, "a.txt".data], "old".data)], [["r".data, "a.txt".data]]⟩
        "+++ b/a.txt\n".data =
      (Except.ok [⟨"a.txt".data, "old".data, "old".data, "D".data⟩],
       ⟨[(["r".data, "a.txt".data], "old".data)], [["r".data, "a.txt".data]]⟩) := by
  constructor
  · obtain ⟨m, hm⟩ :=
      (c7_apply_patch (fun _ _ _ => "D".data) (fun _ fs => some fs) ["r".data]
          ⟨[(["r".data, "a.txt".data], "old".data)], []⟩ "+++ b/a.txt\n".data).1
        ⟨"a.txt".data, ["r".data, "a.txt".data], by decide, rfl, by decide,
         by decide⟩
    rw [hm (fun _ fs => some fs)]
    rfl
  · rfl

/-! ## Claim C10 — ReadSet growth -/

/-- C10. The `ReadSet` grows only through `read_file`: a successful
`read_file` prepends exactly the resolved path (and leaves the
filesystem unchanged), while `write_file` and `apply_patch` never
change the `ReadSet` whatever their outcome. Consequently, after
`write_file` creates a not-yet-existing in-root path, an immediately
following `write_file` to the same path with no intervening
`read_file` fails with the read-before-write error even though the
sandbox itself just wrote the file. -/
theorem c10_readset_growth (udiff : Str → Str → Str → Str)
    (gapply : Str → FS → Option FS) (root : FPath) (st : SandboxSt)
    (p c : Str) :
    (∀ o st', readFileTool root st p = (Except.ok o, st') →
      st'.fs = st.fs ∧
      ∃ rp, resolvePath root p = Except.ok rp ∧
        st'.readSet = rp :: st.readSet) ∧
    (∀ r st', writeFileTool udiff root st p c = (r, st') →
      st'.readSet = st.readSet) ∧
    (∀ patchText r st', applyPatchTool udiff gapply root st patchText = (r, st') →
      st'.readSet = st.readSet) ∧
    (∀ rp, p ≠ [] → resolvePath root p = Except.ok rp →
      fsGet st.fs rp = none → rp ∉ st.readSet → ∀ c2 : Str,
      ∃ st', writeFileTool udiff root st p c =
          (Except.ok ⟨p, true, udiff [] c p, [], c⟩, st') ∧
        writeFileTool udiff root st' p c2 =
          (Except.error "File must be read before write/patch".data, st')) := by
  refine ⟨?_, ?_, ?_, ?_⟩
  · intro o st' h
    by_cases hne : p = []
    · simp [readFileTool, hne] at h
    · cases hres : resolvePath root p with
      | error e => simp [readFileTool, hne, hres] at h
      | ok rp =>
        cases hg : fsGet st.fs rp with
        | none => simp [readFileTool, hne, hres, hg] at h
        | some content =>
          simp [readFileTool, hne, hres, hg] at h
          exact ⟨by rw [← h.2], rp, rfl, by rw [← h.2]⟩
  · intro r st' h
    by_cases hne : p = []
    · simp [writeFileTool, hne] at h
      rw [← h.2]
    · cases hres : resolvePath root p with
      | error e =>
        simp [writeFileTool, hne, hres] at h
        rw [← h.2]
      | ok rp =>
        cases hg : fsGet st.fs rp with
        | none =>
          simp [writeFileTool, hne, hres, hg] at h
          rw [← h.2]
        | some previous =>
          cases he : ensureReadBeforeWrite st.readSet rp with
          | error e =>
            simp [writeFileTool, hne, hres, hg, he] at h
            rw [← h.2]
          | ok u =>
            simp [writeFileTool, hne, hres, hg, he] at h
            rw [← h.2]
  · intro patchText r st' h
    by_cases hne : patchText = []
    · simp [applyPatchTool, hne] at h
      rw [← h.2]
    · cases hpre : patchPre root st (parsePatchPaths patchText) with
      | error e =>
        simp [applyPatchTool, hne, hpre] at h
        rw [← h.2]
      | ok bl =>
        cases hg : gapply patchText st.fs with
        | none =>
          simp [applyPatchTool, hne, hpre, hg] at h
          rw [← h.2]
        | some fs' =>
          cases hpost : patchPost udiff fs' bl with
          | error e =>
            simp [applyPatchTool, hne, hpre, hg, hpost] at h
            rw [← h.2]
          | ok files =>
            simp [applyPatchTool, hne, hpre, hg, hpost] at h
            rw [← h.2]
  · intro rp hne hres hg hnr c2
    refine ⟨{ st with fs := fsSet st.fs rp c }, ?_, ?_⟩
    · simp [writeFileTool, hne, hres, hg]
    · have hg2 : fsGet (fsSet st.fs rp c) rp = some c := fsGet_fsSet_self _ _ _
      have he : ensureReadBeforeWrite st.readSet rp =
          Except.error "File must be read before write/patch".data := by
        unfold ensureReadBeforeWrite
        rw [if_neg hnr]
      simp [writeFileTool, hne, hres, hg2, he]

/-- C10 witness: creating the fresh file `n.txt` succeeds, and
immediately re-writing it without a read fails with the
read-before-write error. -/
theorem c10_readset_growth_witness :
    ∃ st', writeFileTool (fun _ _ _ => []) ["r".data] ⟨[], []⟩ "n.txt".data
        "a".data = (Except.ok ⟨"n.txt".data, true, [], [], "a".data⟩, st') ∧
      writeFileTool (fun _ _ _ => []) ["r".data] st' "n.txt".data "b".data =
        (Except.error "File must be read before write/patch".data, st') :=
  (c10_readset_growth (fun _ _ _ => []) (fun _ fs => some fs) ["r".data]
    ⟨[], []⟩ "n.txt".data "a".data).2.2.2 ["r".data, "n.txt".data]
    (by decide) rfl (by decide) (by decide) "b".data

/-! ## Claim C5 — executeLocalTool never raises -/

/-- C5. `executeLocalTool` is a total function into structured results
(it cannot raise): for every call its result either is `ok` with an
output and no error, or has `ok = false`, no output, and an error
message — so a single tool call cannot crash the hosting worker
process. Every error raised by the underlying operations is
converted: a manifest-fetch failure with message `e` yields
`{ok := false, error := e}` with the state unchanged, a name outside
the manifest yields the `Tool not in manifest` error without touching
the filesystem, and a dispatched operation (unknown names included)
that raises `e` yields `{ok := false, error := e}` at the state the
operation left behind. -/
theorem c5_no_crash (exts : ToolExts) (root : FPath) (st : SandboxSt)
    (call : ToolCall) :
    ((executeLocalTool exts root st call).1.ok = true ∧
       (executeLocalTool exts root st call).1.output.isSome ∧
       (executeLocalTool exts root st call).1.error = none ∨
     (executeLocalTool exts root st call).1.ok = false ∧
       (executeLocalTool exts root st call).1.output = none ∧
       (executeLocalTool exts root st call).1.error.isSome) ∧
    (∀ e, exts.manifest = Except.error e →
      executeLocalTool exts root st call = (⟨false, none, some e⟩, st)) ∧
    (∀ allowed, exts.manifest = Except.ok allowed →
      (call.name ∉ allowed →
        executeLocalTool exts root st call =
          (⟨false, none, some ("Tool not in manifest: ".data ++ call.name)⟩, st)) ∧
      (call.name ∈ allowed → ∀ e st',
        dispatchTool exts root st call = (Except.error e, st') →
        executeLocalTool exts root st call = (⟨false, none, some e⟩, st')) ∧
      (call.name ∈ allowed → ∀ out st',
        dispatchTool exts root st call = (Except.ok out, st') →
        executeLocalTool exts root st call = (⟨true, some out, none⟩, st'))) := by
  refine ⟨?_, ?_, ?_⟩
  · unfold executeLocalTool
    cases hm : exts.manifest with
    | error e => simp
    | ok allowed =>
      by_cases hmem : call.name ∈ allowed
      · cases hd : dispatchTool exts root st call with
        | mk r st' =>
          cases r with
          | error e => simp [hmem, hd]
          | ok out => simp [hmem, hd]
      · simp [hmem]
  · intro e hm
    unfold executeLocalTool
    rw [hm]
  · intro allowed hm
    refine ⟨?_, ?_, ?_⟩
    · intro hmem
      unfold executeLocalTool
      rw [hm]
      simp [hmem]
    · intro hmem e st' hd
      unfold executeLocalTool
      rw [hm]
      simp [hmem, hd]
    · intro hmem out st' hd
      unfold executeLocalTool
      rw [hm]
      simp [hmem, hd]

/-- C5 witness: with a manifest allowing `write_file`, a call whose
path argument escapes the root produces the structured
`{ok := false, error := path-violation}` result rather than raising. -/
theorem c5_no_crash_witness :
    executeLocalTool
        ⟨Except.ok ["write_file".data], fun _ _ _ => [], fun _ fs => some fs,
         fun _ => Except.ok [], fun _ _ => Except.ok [],
         fun _ _ => Except.ok ([], [])⟩
        ["r".data] ⟨[], []⟩ { name := "write_file".data, path := "../x".data } =
      (⟨false, none, some "Path is outside workspace".data⟩, ⟨[], []⟩) :=
  ((c5_no_crash
      ⟨Except.ok ["write_file".data], fun _ _ _ => [], fun _ fs => some fs,
       fun _ => Except.ok [], fun _ _ => Except.ok [],
       fun _ _ => Except.ok ([], [])⟩
      ["r".data] ⟨[], []⟩
      { name := "write_file".data, path := "../x".data }).2.2
    ["write_file".data] rfl).2.1 (by decide) _ _ rfl

/-! ## The Frame Decoder (`src/stream.ts`)

The decoder JSON-parses line payloads with `JSON.parse`. We embed a
JSON value type and a fueled recursive-descent parser for it (`jparse`);
numbers keep their source lexeme, since no decoder behavior depends on
a numeric value beyond JS zero-ness. -/

/-- A parsed JSON value. -/
inductive JVal where
  | null
  | bool (b : Bool)
  | num (lexeme : Str)
  | str (s : Str)
  | arr (items : List JVal)
  | obj (fields : List (Str × JVal))

/-- JSON insignificant whitespace. -/
def skipWs (s : Str) : Str :=
  s.dropWhile fun c => c = ' ' ∨ c = '\t' ∨ c = '\n' ∨ c = '\r'

/-- Value of a hex digit. -/
def hexVal (c : Char) : Option Nat :=
  if '0' ≤ c ∧ c ≤ '9' then some (c.toNat - '0'.toNat)
  else if 'a' ≤ c ∧ c ≤ 'f' then some (c.toNat - 'a'.toNat + 10)
  else if 'A' ≤ c ∧ c ≤ 'F' then some (c.toNat - 'A'.toNat + 10)
  else none

/-- A two-character JSON escape. -/
def escChar (c : Char) : Option Char :=
  if c = '"' then some '"'
  else if c = '\\' then some '\\'
  else if c = '/' then some '/'
  else if c = 'b' then some (Char.ofNat 8)
  else if c = 'f' then some (Char.ofNat 12)
  else if c = 'n' then some '\n'
  else if c = 'r' then some '\r'
  else if c = 't' then some '\t'
  else none

/-- Parse a JSON string body (after the opening quote), returning the
decoded characters and the rest of the input. -/
def parseStrBody : Nat → Str → Option (Str × Str)
  | 0, _ => none
  | _ + 1, [] => none
  | fuel + 1, c :: cs =>
    if c = '"' then some ([], cs)
    else if c = '\\' then
      match cs with
      | [] => none
      | e :: cs2 =>
        if e = 'u' then
          match cs2 with
          | a :: b :: c3 :: d :: cs3 =>
            match hexVal a, hexVal b, hexVal c3, hexVal d with
            | some x1, some x2, some x3, some x4 =>
              (parseStrBody fuel cs3).map fun r =>
                (Char.ofNat (((x1 * 16 + x2) * 16 + x3) * 16 + x4) :: r.1, r.2)
            | _, _, _, _ => none
          | _ => none
        else
          match escChar e with
          | none => none
          | some ch => (parseStrBody fuel cs2).map fun r => (ch :: r.1, r.2)
    else if c.toNat < 32 then none
    else (parseStrBody fuel cs).map fun r => (c :: r.1, r.2)

/-- The exponent part of a JSON number. -/
def parseNumExp (lex : Str) (s : Str) : Option (Str × Str) :=
  match s with
  | [] => some (lex, [])
  | c :: r =>
    if c = 'e' ∨ c = 'E' then
      match r with
      | '+' :: rr =>
        if rr.takeWhile Char.isDigit = [] then none
        else some (lex ++ c :: '+' :: rr.takeWhile Char.isDigit,
                   rr.dropWhile Char.isDigit)
      | '-' :: rr =>
        if rr.takeWhile Char.isDigit = [] then none
        else some (lex ++ c :: '-' :: rr.takeWhile Char.isDigit,
                   rr.dropWhile Char.isDigit)
      | _ =>
        if r.takeWhile Char.isDigit = [] then none
        else some (lex ++ c :: r.takeWhile Char.isDigit, r.dropWhile Char.isDigit)
    else some (lex, s)

/-- The fraction part of a JSON number. -/
def parseNumFrac (lex : Str) (s : Str) : Option (Str × Str) :=
  match s with
  | '.' :: r =>
    if r.takeWhile Char.isDigit = [] then none
    else parseNumExp (lex ++ '.' :: r.takeWhile Char.isDigit) (r.dropWhile Char.isDigit)
  | _ => parseNumExp lex s

/-- A JSON number lexeme. -/
def parseNum (s : Str) : Option (Str × Str) :=
  match s with
  | '-' :: s1 =>
    match s1 with
    | [] => none
    | c :: r =>
      if c = '0' then parseNumFrac ['-', '0'] r
      else if c.isDigit then
        parseNumFrac ('-' :: c :: r.takeWhile Char.isDigit) (r.dropWhile Char.isDigit)
      else none
  | [] => none
  | c :: r =>
    if c = '0' then parseNumFrac ['0'] r
    else if c.isDigit then
      parseNumFrac (c :: r.takeWhile Char.isDigit) (r.dropWhile Char.isDigit)
    else none

mutual

/-- Parse one JSON value. -/
def parseVal : Nat → Str → Option (JVal × Str)
  | 0, _ => none
  | fuel + 1, s =>
    match skipWs s with
    | [] => none
    | c :: cs =>
      if c = '"' then (parseStrBody fuel cs).map fun r => (JVal.str r.1, r.2)
      else if c = '[' then
        match skipWs cs with
        | ']' :: r => some (JVal.arr [], r)
        | _ => (parseArrItems fuel cs).map fun r => (JVal.arr r.1, r.2)
      else if c = '{' then
        match skipWs cs with
        | '}' :: r => some (JVal.obj [], r)
        | _ => (parseObjItems fuel cs).map fun r => (JVal.obj r.1, r.2)
      else if c = 't' then
        if ['r', 'u', 'e'].isPrefixOf cs then some (JVal.bool true, cs.drop 3)
        else none
      else if c = 'f' then
        if ['a', 'l', 's', 'e'].isPrefixOf cs then some (JVal.bool false, cs.drop 4)
        else none
      else if c = 'n' then
        if ['u', 'l', 'l'].isPrefixOf cs then some (JVal.null, cs.drop 3)
        else none
      else (parseNum (c :: cs)).map fun r => (JVal.num r.1, r.2)

/-- Parse the elements of a non-empty JSON array (after `[`). -/
def parseArrItems : Nat → Str → Option (List JVal × Str)
  | 0, _ => none
  | fuel + 1, s =>
    match parseVal fuel s with
    | none => none
    | some (v, r) =>
      match skipWs r with
      | ',' :: r2 => (parseArrItems fuel r2).map fun t => (v :: t.1, t.2)
      | ']' :: r2 => some ([v], r2)
      | _ => none

/-- Parse the fields of a non-empty JSON object (after `{`). -/
def parseObjItems : Nat → Str → Option (List (Str × JVal) × Str)
  | 0, _ => none
  | fuel + 1, s =>
    match skipWs s with
    | '"' :: cs =>
      match parseStrBody fuel cs with
      | none => none
      | some (k, r) =>
        match skipWs r with
        | ':' :: r2 =>
          match parseVal fuel r2 with
          | none => none
          | some (v, r3) =>
            match skipWs r3 with
            | ',' :: r4 => (parseObjItems fuel r4).map fun t => ((k, v) :: t.1, t.2)
            | '}' :: r4 => some ([(k, v)], r4)
            | _ => none
        | _ => none
    | _ => none

end

/-- `JSON.parse`: parse one value, require only whitespace after it. -/
def jparse (s : Str) : Option JVal :=
  match parseVal (s.length + 8) s with
  | some (v, rest) => if skipWs rest = [] then some v else none
  | none => none

/-- Is a JSON number lexeme numerically zero (its mantissa has no
nonzero digit)? -/
def numLexIsZero (lex : Str) : Bool :=
  (lex.takeWhile fun c => ¬ (c = 'e' ∨ c = 'E')).all fun c =>
    ¬ ('1' ≤ c ∧ c ≤ '9')

/-- JS truthiness of a parsed JSON value. -/
def jTruthy : JVal → Bool
  | JVal.null => false
  | JVal.bool b => b
  | JVal.num lex => ¬ numLexIsZero lex
  | JVal.str s => s ≠ []
  | JVal.arr _ => true
  | JVal.obj _ => true

/-- Property access `v.k` on a parsed JSON value: objects look keys up
(`JSON.parse` keeps the last duplicate binding), everything else gives
`undefined`. -/
def getField : JVal → Str → Option JVal
  | JVal.obj fields, k => (fields.reverse.find? fun f => f.1 = k).map (·.2)
  | _, _ => none

/-- Does the JS test `frame && typeof frame === "object"` pass? -/
def jsObjLike : JVal → Bool
  | JVal.arr _ => true
  | JVal.obj _ => true
  | _ => false

/-- The frame list a `2:` payload is interpreted as: an array is
itself, an object with an array `data` field contributes that array,
anything else is wrapped singly (`normalizeDataFrames` /
`extractUsage` preamble). -/
def dataFramesOf (raw : JVal) : List JVal :=
  match raw with
  | JVal.arr xs => xs
  | JVal.obj _ =>
    match getField raw "data".data with
    | some (JVal.arr ds) => ds
    | _ => [raw]
  | _ => [raw]

/-- The item synthesized for a `type == "assistant-message"` frame;
`now` is the `Date.now()` rendering and `nowIso` the
`new Date().toISOString()` value at synthesis time. -/
def synthAssistantItem (now nowIso : Str) (frame : JVal) (content : Str) : JVal :=
  JVal.obj
    [("type".data, JVal.str "message".data),
     ("role".data, JVal.str "assistant".data),
     ("id".data, JVal.str ("assistant-".data ++ now)),
     ("content".data,
      JVal.arr [JVal.obj [("type".data, JVal.str "markdown".data),
                          ("text".data, JVal.str content)]]),
     ("createdAt".data,
      JVal.str (match getField frame "createdAt".data with
                | some (JVal.str s) => s
                | _ => nowIso))]

/-- One step of `normalizeDataFrames`'s frame loop. -/
def normFrameStep (now nowIso : Str) (acc : Option Str × List JVal)
    (frame : JVal) : Option Str × List JVal :=
  if ¬ jsObjLike frame then acc
  else
    match getField frame "type".data with
    | some (JVal.str t) =>
      if t = "conversation-created".data then
        match getField frame "conversationId".data with
        | some (JVal.str cid) => (some cid, acc.2)
        | _ => acc
      else if t = "response_items".data then
        match getField frame "items".data with
        | some (JVal.arr its) => (acc.1, acc.2 ++ its)
        | _ => acc
      else if t = "response_item".data then
        match getField frame "item".data with
        | some item => if jTruthy item then (acc.1, acc.2 ++ [item]) else acc
        | none => acc
      else if t = "assistant-message".data then
        match getField frame "content".data with
        | some (JVal.str content) =>
          (acc.1, acc.2 ++ [synthAssistantItem now nowIso frame content])
        | _ => acc
      else acc
    | _ => acc

/-- `normalizeDataFrames` from `src/stream.ts`: fold the frame loop,
returning the (last) surfaced conversation id and the appended items. -/
def normalizeDataFrames (now nowIso : Str) (raw : JVal) :
    Option Str × List JVal :=
  (dataFramesOf raw).foldl (normFrameStep now nowIso) (none, [])

/-- A `typeof x === "number"` token field with its camelCase and
snake_case spellings. -/
def numField (u : JVal) (k1 k2 : Str) : Option JVal :=
  match getField u k1 with
  | some (JVal.num l) => some (JVal.num l)
  | _ =>
    match getField u k2 with
    | some (JVal.num l) => some (JVal.num l)
    | _ => none

/-- The frame scan of `extractUsage`. -/
def extractUsageGo : List JVal → Option (Option JVal × Option JVal × Option JVal)
  | [] => none
  | frame :: rest =>
    if ¬ jsObjLike frame then extractUsageGo rest
    else if (match getField frame "type".data with
             | some (JVal.str t) => t = "usage".data
             | _ => false) = false then
      extractUsageGo rest
    else
      match getField frame "usage".data with
      | none => extractUsageGo rest
      | some u =>
        if ¬ jTruthy u then extractUsageGo rest
        else
          some (numField u "promptTokens".data "prompt_tokens".data,
                numField u "completionTokens".data "completion_tokens".data,
                numField u "totalTokens".data "total_tokens".data)

/-- `extractUsage` from `src/stream.ts`: the first `usage` frame's
normalized token triple. -/
def extractUsage (raw : JVal) :
    Option (Option JVal × Option JVal × Option JVal) :=
  extractUsageGo (dataFramesOf raw)

/-- One decoded Frame Decoder event (a callback invocation). -/
inductive SEv where
  | textDelta (s : Str)
  | reasoningDelta (s : Str)
  | convId (s : Str)
  | items (xs : List JVal)
  | usage (p c t : Option JVal)

/-- The events a successfully parsed `2:` payload emits, in source
order: usage (when a usage frame was found), conversation id (when
truthy), items (when non-empty). -/
def dataLineEvents (now nowIso : Str) (v : JVal) : List SEv :=
  (match extractUsage v with
   | some (p, c, t) => [SEv.usage p c t]
   | none => []) ++
  (match (normalizeDataFrames now nowIso v).1 with
   | some cid => if cid ≠ [] then [SEv.convId cid] else []
   | none => []) ++
  (if (normalizeDataFrames now nowIso v).2.isEmpty then []
   else [SEv.items (normalizeDataFrames now nowIso v).2])

/-- The body of the source's `3:` handler `try` block: parse the
payload and, when it is a plain string, throw `new Error(message)`.
Note that this throw happens inside the same `try` whose `catch` was
written to ignore malformed error frames, so the `catch` swallows the
deliberate abort as well — see `handleLine`. -/
def errFrameAttempt (payload : Str) : Except Str Unit :=
  match jparse payload with
  | none => Except.error "Unexpected token in JSON".data
  | some (JVal.str s) => Except.error s
  | some _ => Except.ok ()

/-- The line-loop state of `consumeStream`: events emitted so far, how
many times the cancellation predicate has been polled, whether a poll
cancelled the stream, and the raised exception if any. -/
structure LSt where
  events : List SEv
  polls : Nat
  stopped : Bool
  err : Option Str

/-- The full decoder state: the buffered trailing partial line plus the
line-loop state. The line loop itself never touches the remainder (the
source assigns `remainder` before entering the loop). -/
structure MSt where
  remainder : Str
  ls : LSt

/-- Did the stream already end by cancel or raise? Further input is
then never processed. -/
def LSt.dirty (ls : LSt) : Prop := ls.stopped = true ∨ ls.err.isSome = true

instance (ls : LSt) : Decidable ls.dirty := by
  unfold LSt.dirty
  infer_instance

/-- `stopIfNeeded`: poll the cancellation predicate once; when it
returns true the underlying read is cancelled and the stop callback
fires (recorded as `stopped := true`). -/
def pollOnce (pred : Nat → Bool) (ls : LSt) : LSt :=
  if pred ls.polls then { ls with polls := ls.polls + 1, stopped := true }
  else { ls with polls := ls.polls + 1 }

/-- Process one complete decoded line, mirroring the `for` body of
`consumeStream`. Once the stream was cancelled or an exception was
raised, the remaining lines of the batch are not processed. `0:`/`g:`
payloads go through a bare `JSON.parse`, whose failure raises; `d:`
lines are discarded; `3:` lines swallow both malformed payloads and
the deliberately thrown string-error (the throw sits inside its own
`try`/`catch`); `2:` lines emit their events and poll the cancellation
predicate (inside the `try`, and again at the loop tail), and
unrecognized non-empty lines reach the loop-tail poll; `0:`/`g:`/`d:`/
`3:`/empty lines `continue` past the loop-tail poll. -/
def handleLine (pred : Nat → Bool) (now nowIso : Str) (ls : LSt)
    (line : Str) : LSt :=
  if ls.dirty then ls
  else if line = [] then ls
  else if ['0', ':'].isPrefixOf line then
    if jsTrim (line.drop 2) = [] then ls
    else
      match jparse (jsTrim (line.drop 2)) with
      | none => { ls with err := some "Unexpected token in JSON".data }
      | some (JVal.str s) => { ls with events := ls.events ++ [SEv.textDelta s] }
      | some _ => ls
  else if ['g', ':'].isPrefixOf line then
    if jsTrim (line.drop 2) = [] then ls
    else
      match jparse (jsTrim (line.drop 2)) with
      | none => { ls with err := some "Unexpected token in JSON".data }
      | some (JVal.str s) =>
        { ls with events := ls.events ++ [SEv.reasoningDelta s] }
      | some _ => ls
  else if ['d', ':'].isPrefixOf line then ls
  else if ['3', ':'].isPrefixOf line then
    if jsTrim (line.drop 2) = [] then ls
    else
      match errFrameAttempt (jsTrim (line.drop 2)) with
      | Except.error _ => ls
      | Except.ok _ => ls
  else if ['2', ':'].isPrefixOf line then
    if jsTrim (line.drop 2) = [] then ls
    else
      match jparse (jsTrim (line.drop 2)) with
      | none => pollOnce pred ls
      | some v =>
        let ls1 := { ls with events := ls.events ++ dataLineEvents now nowIso v }
        let ls2 := pollOnce pred ls1
        if ls2.stopped then ls2 else pollOnce pred ls2
  else pollOnce pred ls

/-- Process one network chunk: append it to the buffered remainder,
split at newlines, keep the final segment as the new remainder, and
run the line loop over the complete lines. After a cancel or raise,
remaining chunks are never read. -/
def processChunk (pred : Nat → Bool) (now nowIso : Str) (st : MSt)
    (chunk : Str) : MSt :=
  if st.ls.dirty then st
  else
    ⟨(splitLR '\n' (st.remainder ++ chunk)).2,
     (splitLR '\n' (st.remainder ++ chunk)).1.foldl (handleLine pred now nowIso)
       st.ls⟩

/-- The initial decoder state. -/
def initMSt : MSt := ⟨[], ⟨[], 0, false, none⟩⟩

/-- Run the decoder over a list of chunks. -/
def runStream (pred : Nat → Bool) (now nowIso : Str) (chunks : List Str) : MSt :=
  chunks.foldl (processChunk pred now nowIso) initMSt

/-- `consumeStream` from `src/stream.ts`: reject a missing body, then
decode the chunk sequence; a raised exception rejects the returned
promise, otherwise the emitted events (and whether the stream was
cancelled) result. -/
def consumeStream (pred : Nat → Bool) (now nowIso : Str)
    (body : Option (List Str)) : Except Str (List SEv × Bool) :=
  match body with
  | none => Except.error "Missing response body".data
  | some chunks =>
    match (runStream pred now nowIso chunks).ls.err with
    | some e => Except.error e
    | none =>
      Except.ok ((runStream pred now nowIso chunks).ls.events,
                 (runStream pred now nowIso chunks).ls.stopped)

/-! ## Claim C3 — consumeStream failure modes (code bug)

The source's `3:` handler is

```
try {
  const message = JSON.parse(payload);
  if (typeof message === "string") {
    throw new Error(message);
  }
} catch {
  // Ignore malformed error frames (can be truncated).
}
```

The `throw new Error(message)` that was to abort the stream sits
inside the very `try` whose `catch` was written to ignore *malformed*
frames, so the deliberate abort is swallowed too and a `3:` line can
never reject the stream. Meanwhile the `0:`/`g:` handlers call
`JSON.parse` with no `try` at all, so a malformed text/reasoning
payload rejects the stream. Both contradict the documented failure
mode "fails only on a missing response body or an explicit terminal
`3` string-error frame". -/

/-- C3 (evaluation at the failing inputs). The stream consisting of the
single line `3:"boom"` completes successfully with no events — the
deliberately thrown `Error("boom")` (second conjunct: the `try` body
does raise it) is swallowed by its own `catch` — while the stream
`0:boom`, whose payload is malformed JSON, rejects with the parse
error, and a missing body rejects with `Missing response body`. -/
theorem c3_error_frame_evaluation :
    consumeStream (fun _ => false) [] [] (some ["3:\"boom\"\n".data]) =
      Except.ok ([], false) ∧
    errFrameAttempt (jsTrim ("3:\"boom\"".data.drop 2)) =
      Except.error "boom".data ∧
    consumeStream (fun _ => false) [] [] (some ["0:boom\n".data]) =
      Except.error "Unexpected token in JSON".data ∧
    consumeStream (fun _ => false) [] [] none =
      Except.error "Missing response body".data :=
  ⟨rfl, rfl, rfl, rfl⟩

/-! ## Claim C4 — chunking invariance -/

theorem splitLR_append (sep : Char) (a b : Str) :
    splitLR sep (a ++ b) =
      ((splitLR sep a).1 ++ (splitLR sep ((splitLR sep a).2 ++ b)).1,
       (splitLR sep ((splitLR sep a).2 ++ b)).2) := by
  induction a with
  | nil => simp [splitLR]
  | cons c a ih =>
    cases hsp : splitLR sep a with
    | mk l1 r1 =>
      rw [hsp] at ih
      by_cases hc : c = sep
      · subst hc
        simp [splitLR, hsp, ih, List.append_eq]
      · cases l1 with
        | nil =>
          cases hy : splitLR sep (r1 ++ b) with
          | mk l2 r2 =>
            rw [hy] at ih
            simp only [List.nil_append] at ih
            cases l2 with
            | nil => simp [splitLR, hc, hsp, hy, ih, List.append_eq]
            | cons y ys => simp [splitLR, hc, hsp, hy, ih, List.append_eq]
        | cons x xs =>
          simp [splitLR, hc, hsp, ih, List.append_eq]

theorem splitLR_no_sep (sep : Char) (s : Str) (h : ∀ ch ∈ s, ch ≠ sep) :
    splitLR sep s = ([], s) := by
  induction s with
  | nil => simp [splitLR]
  | cons c cs ih =>
    have hc : c ≠ sep := h c (List.mem_cons_self _ _)
    have ih2 := ih fun ch hch => h ch (List.mem_cons_of_mem _ hch)
    simp [splitLR, hc, ih2]

theorem splitLR_snd_no_sep (sep : Char) (s : Str) :
    ∀ ch ∈ (splitLR sep s).2, ch ≠ sep := by
  induction s with
  | nil => simp [splitLR]
  | cons c cs ih =>
    cases hsp : splitLR sep cs with
    | mk l1 r1 =>
      rw [hsp] at ih
      by_cases hc : c = sep
      · subst hc
        simpa [splitLR, hsp] using ih
      · cases l1 with
        | nil =>
          intro ch hch
          simp only [splitLR, if_neg hc, hsp] at hch
          rcases List.mem_cons.mp hch with rfl | hch2
          · exact hc
          · exact ih ch hch2
        | cons x xs =>
          intro ch hch
          simp only [splitLR, if_neg hc, hsp] at hch
          exact ih ch hch

theorem handleLine_dirty (pred : Nat → Bool) (now nowIso : Str) (ls : LSt)
    (line : Str) (h : ls.dirty) : handleLine pred now nowIso ls line = ls := by
  unfold handleLine
  rw [if_pos h]

theorem foldl_handleLine_dirty (pred : Nat → Bool) (now nowIso : Str)
    (ls : LSt) (lines : List Str) (h : ls.dirty) :
    lines.foldl (handleLine pred now nowIso) ls = ls := by
  induction lines with
  | nil => rfl
  | cons l rest ih => simp [handleLine_dirty pred now nowIso ls l h, ih]

theorem processChunk_dirty (pred : Nat → Bool) (now nowIso : Str) (st : MSt)
    (c : Str) (h : st.ls.dirty) : processChunk pred now nowIso st c = st := by
  unfold processChunk
  rw [if_pos h]

/-- The observational relation for chunk processing: the line-loop
state (events, polls, cancellation, exception) coincides, and so does
the buffered remainder so long as the stream has not ended — after a
cancel or raise the remainder is dead state. -/
def chunkRel (s t : MSt) : Prop :=
  s.ls = t.ls ∧ (¬ s.ls.dirty → s.remainder = t.remainder)

theorem chunkRel_refl (s : MSt) : chunkRel s s := ⟨rfl, fun _ => rfl⟩

theorem chunkRel_trans {s t u : MSt} (h1 : chunkRel s t) (h2 : chunkRel t u) :
    chunkRel s u := by
  refine ⟨h1.1.trans h2.1, fun hd => ?_⟩
  rw [h1.2 hd, h2.2 (by rw [← h1.1]; exact hd)]

theorem mst_eq (s t : MSt) (h1 : s.remainder = t.remainder)
    (h2 : s.ls = t.ls) : s = t := by
  cases s
  cases t
  simp_all

/-- Processing `a` then `b` is observationally the same as processing
`a ++ b` at once. -/
theorem processChunk_comp (pred : Nat → Bool) (now nowIso : Str) (s : MSt)
    (a b : Str) :
    chunkRel (processChunk pred now nowIso (processChunk pred now nowIso s a) b)
      (processChunk pred now nowIso s (a ++ b)) := by
  by_cases hd : s.ls.dirty
  · rw [processChunk_dirty pred now nowIso s a hd,
        processChunk_dirty pred now nowIso s b hd,
        processChunk_dirty pred now nowIso s (a ++ b) hd]
    exact chunkRel_refl s
  · have hsplit := splitLR_append '\n' (s.remainder ++ a) b
    have hassoc : s.remainder ++ (a ++ b) = (s.remainder ++ a) ++ b := by
      rw [List.append_assoc]
    have hpc1 : processChunk pred now nowIso s a =
        ⟨(splitLR '\n' (s.remainder ++ a)).2,
         (splitLR '\n' (s.remainder ++ a)).1.foldl (handleLine pred now nowIso)
           s.ls⟩ := by
      unfold processChunk
      rw [if_neg hd]
    have hpcab : processChunk pred now nowIso s (a ++ b) =
        ⟨(splitLR '\n' ((splitLR '\n' (s.remainder ++ a)).2 ++ b)).2,
         ((splitLR '\n' ((splitLR '\n' (s.remainder ++ a)).2 ++ b)).1).foldl
           (handleLine pred now nowIso)
           ((splitLR '\n' (s.remainder ++ a)).1.foldl
             (handleLine pred now nowIso) s.ls)⟩ := by
      unfold processChunk
      rw [if_neg hd, hassoc, hsplit]
      simp [List.foldl_append]
    set F1 := (splitLR '\n' (s.remainder ++ a)).1.foldl
      (handleLine pred now nowIso) s.ls with hF1
    by_cases hd1 : F1.dirty
    · rw [hpc1, processChunk_dirty pred now nowIso _ b (by simpa using hd1), hpcab]
      refine ⟨?_, fun hcontra => ?_⟩
      · simp only []
        rw [foldl_handleLine_dirty pred now nowIso F1 _ hd1]
      · exfalso
        exact hcontra hd1
    · rw [hpc1, hpcab]
      have : processChunk pred now nowIso
          (⟨(splitLR '\n' (s.remainder ++ a)).2, F1⟩ : MSt) b =
          ⟨(splitLR '\n' ((splitLR '\n' (s.remainder ++ a)).2 ++ b)).2,
           ((splitLR '\n' ((splitLR '\n' (s.remainder ++ a)).2 ++ b)).1).foldl
             (handleLine pred now nowIso) F1⟩ := by
        unfold processChunk
        rw [if_neg (by simpa using hd1)]
      rw [this]
      exact chunkRel_refl _

theorem processChunk_congr (pred : Nat → Bool) (now nowIso : Str)
    {s t : MSt} (h : chunkRel s t) (c : Str) :
    chunkRel (processChunk pred now nowIso s c)
      (processChunk pred now nowIso t c) := by
  by_cases hd : s.ls.dirty
  · have hdt : t.ls.dirty := by rw [← h.1]; exact hd
    rw [processChunk_dirty pred now nowIso s c hd,
        processChunk_dirty pred now nowIso t c hdt]
    exact h
  · have : s = t := mst_eq s t (h.2 hd) h.1
    rw [this]
    exact chunkRel_refl _

theorem processChunk_remainder_no_nl (pred : Nat → Bool) (now nowIso : Str)
    (s : MSt) (c : Str) (h : ∀ ch ∈ s.remainder, ch ≠ '\n') :
    ∀ ch ∈ (processChunk pred now nowIso s c).remainder, ch ≠ '\n' := by
  by_cases hd : s.ls.dirty
  · rw [processChunk_dirty pred now nowIso s c hd]
    exact h
  · unfold processChunk
    rw [if_neg hd]
    exact splitLR_snd_no_sep '\n' (s.remainder ++ c)

theorem runFold_rel (pred : Nat → Bool) (now nowIso : Str) :
    ∀ (chunks : List Str) (s : MSt), (∀ ch ∈ s.remainder, ch ≠ '\n') →
      chunkRel (chunks.foldl (processChunk pred now nowIso) s)
        (processChunk pred now nowIso s chunks.flatten) := by
  intro chunks
  induction chunks with
  | nil =>
    intro s hnl
    by_cases hd : s.ls.dirty
    · rw [processChunk_dirty pred now nowIso s _ hd]
      exact chunkRel_refl s
    · show chunkRel s _
      unfold processChunk
      rw [if_neg hd]
      rw [show ([] : List Str).flatten = [] from rfl, List.append_nil,
          splitLR_no_sep '\n' s.remainder hnl]
      exact ⟨rfl, fun _ => rfl⟩
  | cons c cs ih =>
    intro s hnl
    have h1 : chunkRel
        (cs.foldl (processChunk pred now nowIso) (processChunk pred now nowIso s c))
        (processChunk pred now nowIso (processChunk pred now nowIso s c) cs.flatten) :=
      ih (processChunk pred now nowIso s c)
        (processChunk_remainder_no_nl pred now nowIso s c hnl)
    have h2 := processChunk_comp pred now nowIso s c cs.flatten
    have h3 : chunkRel (List.foldl (processChunk pred now nowIso) s (c :: cs))
        (processChunk pred now nowIso s (c ++ cs.flatten)) := by
      rw [List.foldl_cons]
      exact chunkRel_trans h1 h2
    simpa using h3

/-- C4. Chunking invariance: for every cancellation predicate, clock,
byte stream, and way of splitting it into chunks, the decoder's
observable outcome — the emitted event sequence, the poll count, the
cancellation flag, and the raised exception, i.e. the whole line-loop
state — equals that of delivering the concatenation as one chunk; and
a chunk that completes no line (no newline in the buffered remainder
plus the chunk) only extends the buffered remainder: nothing is
emitted early and nothing is dropped. -/
theorem c4_chunking_invariance (pred : Nat → Bool) (now nowIso : Str) :
    (∀ chunks : List Str,
      (runStream pred now nowIso chunks).ls =
        (runStream pred now nowIso [chunks.flatten]).ls) ∧
    (∀ (st : MSt) (c : Str), ¬ st.ls.dirty →
      (∀ ch ∈ st.remainder, ch ≠ '\n') → (∀ ch ∈ c, ch ≠ '\n') →
      processChunk pred now nowIso st c = ⟨st.remainder ++ c, st.ls⟩) := by
  constructor
  · intro chunks
    have h := runFold_rel pred now nowIso chunks initMSt (by simp [initMSt])
    have h2 : runStream pred now nowIso [chunks.flatten] =
        processChunk pred now nowIso initMSt chunks.flatten := by
      unfold runStream
      simp
    rw [h2]
    exact h.1
  · intro st c hd hrem hc
    unfold processChunk
    rw [if_neg hd]
    have hnl : ∀ ch ∈ st.remainder ++ c, ch ≠ '\n' := by
      intro ch hch
      rcases List.mem_append.mp hch with h1 | h1
      · exact hrem ch h1
      · exact hc ch h1
    rw [splitLR_no_sep '\n' _ hnl]
    rfl

/-- C4 witness: splitting the line `0:"hi"` after the `h` yields the
same decoded outcome as one chunk, and the newline-free first chunk is
only buffered. -/
theorem c4_chunking_invariance_witness :
    (runStream (fun _ => false) [] [] ["0:\"h".data, "i\"\n".data]).ls =
      (runStream (fun _ => false) [] []
        [List.flatten ["0:\"h".data, "i\"\n".data]]).ls ∧
    processChunk (fun _ => false) [] [] initMSt "0:\"h".data =
      ⟨[] ++ "0:\"h".data, initMSt.ls⟩ :=
  ⟨(c4_chunking_invariance (fun _ => false) [] []).1 ["0:\"h".data, "i\"\n".data],
   (c4_chunking_invariance (fun _ => false) [] []).2 initMSt "0:\"h".data
     (by simp [initMSt, LSt.dirty]) (by simp [initMSt]) (by decide)⟩

/-! ## Claim C8 — cancellation (corrected)

The loop-tail `stopIfNeeded` check sits after the prefix dispatch, but
every recognized non-`2:` branch ends in `continue`, which skips it:
`0:`, `g:`, `d:`, `3:` and empty lines are decoded without ever
polling the predicate. Only `2:` lines (with a non-empty payload) and
unrecognized non-empty lines poll it. -/

/-- Does the decoder poll the cancellation predicate while processing
this line? Mirrors the branch structure of `handleLine`. -/
def linePolls (line : Str) : Bool :=
  if line = [] then false
  else if ['0', ':'].isPrefixOf line then false
  else if ['g', ':'].isPrefixOf line then false
  else if ['d', ':'].isPrefixOf line then false
  else if ['3', ':'].isPrefixOf line then false
  else if ['2', ':'].isPrefixOf line then decide (jsTrim (line.drop 2) ≠ [])
  else true

/-- C8 counterexample. The claim says the cancellation predicate is
checked at each decoded line and that once it returns true no further
events are emitted and the stop callback fires. With the predicate
constantly true, the two-line stream `0:"a"` `0:"b"` still emits both
text deltas and never stops: text-delta lines `continue` past the
stop check, so the predicate is never consulted at all. -/
theorem c8_cancellation_counterexample :
    consumeStream (fun _ => true) [] [] (some ["0:\"a\"\n0:\"b\"\n".data]) =
      Except.ok ([SEv.textDelta "a".data, SEv.textDelta "b".data], false) := rfl

/-- With a predicate that never asks to stop, the decoder never sets
the cancellation flag. -/
theorem handleLine_stopped_of_pred_false (now nowIso : Str) (ls : LSt)
    (line : Str) :
    (handleLine (fun _ => false) now nowIso ls line).stopped = ls.stopped := by
  unfold handleLine
  by_cases hd : ls.dirty
  · rw [if_pos hd]
  · rw [if_neg hd]
    by_cases h0 : line = []
    · rw [if_pos h0]
    · rw [if_neg h0]
      by_cases hp0 : ['0', ':'].isPrefixOf line
      · rw [if_pos hp0]
        by_cases hpay : jsTrim (line.drop 2) = []
        · rw [if_pos hpay]
        · rw [if_neg hpay]
          cases jparse (jsTrim (line.drop 2)) with
          | none => rfl
          | some v => cases v <;> rfl
      · rw [if_neg hp0]
        by_cases hpg : ['g', ':'].isPrefixOf line
        · rw [if_pos hpg]
          by_cases hpay : jsTrim (line.drop 2) = []
          · rw [if_pos hpay]
          · rw [if_neg hpay]
            cases jparse (jsTrim (line.drop 2)) with
            | none => rfl
            | some v => cases v <;> rfl
        · rw [if_neg hpg]
          by_cases hpd : ['d', ':'].isPrefixOf line
          · rw [if_pos hpd]
          · rw [if_neg hpd]
            by_cases hp3 : ['3', ':'].isPrefixOf line
            · rw [if_pos hp3]
              by_cases hpay : jsTrim (line.drop 2) = []
              · rw [if_pos hpay]
              · rw [if_neg hpay]
                cases errFrameAttempt (jsTrim (line.drop 2)) <;> rfl
            · rw [if_neg hp3]
              by_cases hp2 : ['2', ':'].isPrefixOf line
              · rw [if_pos hp2]
                by_cases hpay : jsTrim (line.drop 2) = []
                · rw [if_pos hpay]
                · rw [if_neg hpay]
                  cases jparse (jsTrim (line.drop 2)) with
                  | none => simp [pollOnce]
                  | some v =>
                    simp only [pollOnce]
                    simp only [Bool.false_eq_true, if_false]
                    split <;> rfl
              · rw [if_neg hp2]
                simp [pollOnce]

theorem runStream_no_stop_of_pred_false (now nowIso : Str) :
    ∀ (chunks : List Str) (s : MSt),
      (chunks.foldl (processChunk (fun _ => false) now nowIso) s).ls.stopped =
        s.ls.stopped := by
  intro chunks
  induction chunks with
  | nil => intro s; rfl
  | cons c cs ih =>
    intro s
    rw [List.foldl_cons, ih]
    by_cases hd : s.ls.dirty
    · rw [processChunk_dirty _ now nowIso s c hd]
    · unfold processChunk
      rw [if_neg hd]
      generalize (splitLR '\n' (s.remainder ++ c)).1 = lines
      show (lines.foldl (handleLine (fun _ => false) now nowIso) s.ls).stopped = _
      generalize s.ls = ls
      induction lines generalizing ls with
      | nil => rfl
      | cons l rest ih2 =>
        rw [List.foldl_cons, ih2, handleLine_stopped_of_pred_false]

/-- C8 (amended). The cancellation predicate is polled exactly at
decoded `2:` lines with a non-empty payload and at unrecognized
non-empty lines — `0:`/`g:`/`d:`/`3:` and empty lines `continue` past
the check, so in particular it is not polled merely once per network
chunk. At a polling line, a predicate that answers true cancels the
stream (read cancelled, stop callback fired, `stopped` set); once the
stream is cancelled or has raised, every further line and chunk is
ignored, so no further events are ever emitted; and a predicate that
never answers true never cancels the stream. -/
theorem c8_cancellation (pred : Nat → Bool) (now nowIso : Str) :
    (∀ ls line, ¬ ls.dirty → linePolls line = false →
      (handleLine pred now nowIso ls line).stopped = ls.stopped ∧
      (handleLine pred now nowIso ls line).polls = ls.polls) ∧
    (∀ ls line, ¬ ls.dirty → linePolls line = true → pred ls.polls = true →
      (handleLine pred now nowIso ls line).stopped = true) ∧
    (∀ ls line, ls.dirty → handleLine pred now nowIso ls line = ls) ∧
    (∀ st c, st.ls.dirty → processChunk pred now nowIso st c = st) ∧
    (∀ chunks, (runStream (fun _ => false) now nowIso chunks).ls.stopped =
      false) := by
  refine ⟨?_, ?_, ?_, ?_, ?_⟩
  · intro ls line hd hlp
    unfold linePolls at hlp
    unfold handleLine
    rw [if_neg hd]
    by_cases h0 : line = []
    · rw [if_pos h0]
      exact ⟨rfl, rfl⟩
    · rw [if_neg h0]
      rw [if_neg h0] at hlp
      by_cases hp0 : ['0', ':'].isPrefixOf line
      · rw [if_pos hp0]
        by_cases hpay : jsTrim (line.drop 2) = []
        · rw [if_pos hpay]
          exact ⟨rfl, rfl⟩
        · rw [if_neg hpay]
          cases jparse (jsTrim (line.drop 2)) with
          | none => exact ⟨rfl, rfl⟩
          | some v => cases v <;> exact ⟨rfl, rfl⟩
      · rw [if_neg hp0]
        rw [if_neg hp0] at hlp
        by_cases hpg : ['g', ':'].isPrefixOf line
        · rw [if_pos hpg]
          by_cases hpay : jsTrim (line.drop 2) = []
          · rw [if_pos hpay]
            exact ⟨rfl, rfl⟩
          · rw [if_neg hpay]
            cases jparse (jsTrim (line.drop 2)) with
            | none => exact ⟨rfl, rfl⟩
            | some v => cases v <;> exact ⟨rfl, rfl⟩
        · rw [if_neg hpg]
          rw [if_neg hpg] at hlp
          by_cases hpd : ['d', ':'].isPrefixOf line
          · rw [if_pos hpd]
            exact ⟨rfl, rfl⟩
          · rw [if_neg hpd]
            rw [if_neg hpd] at hlp
            by_cases hp3 : ['3', ':'].isPrefixOf line
            · rw [if_pos hp3]
              by_cases hpay : jsTrim (line.drop 2) = []
              · rw [if_pos hpay]
                exact ⟨rfl, rfl⟩
              · rw [if_neg hpay]
                cases errFrameAttempt (jsTrim (line.drop 2)) <;> exact ⟨rfl, rfl⟩
            · rw [if_neg hp3]
              rw [if_neg hp3] at hlp
              by_cases hp2 : ['2', ':'].isPrefixOf line
              · rw [if_pos hp2]
                rw [if_pos hp2] at hlp
                have hpay : jsTrim (line.drop 2) = [] := by
                  by_contra hne
                  simp [hne] at hlp
                rw [if_pos hpay]
                exact ⟨rfl, rfl⟩
              · rw [if_neg hp2]
                rw [if_neg hp2] at hlp
                cases hlp
  · intro ls line hd hlp hpred
    unfold linePolls at hlp
    unfold handleLine
    rw [if_neg hd]
    by_cases h0 : line = []
    · rw [if_pos h0] at hlp; cases hlp
    · rw [if_neg h0]
      rw [if_neg h0] at hlp
      by_cases hp0 : ['0', ':'].isPrefixOf line
      · rw [if_pos hp0] at hlp; cases hlp
      · rw [if_neg hp0]
        rw [if_neg hp0] at hlp
        by_cases hpg : ['g', ':'].isPrefixOf line
        · rw [if_pos hpg] at hlp; cases hlp
        · rw [if_neg hpg]
          rw [if_neg hpg] at hlp
          by_cases hpd : ['d', ':'].isPrefixOf line
          · rw [if_pos hpd] at hlp; cases hlp
          · rw [if_neg hpd]
            rw [if_neg hpd] at hlp
            by_cases hp3 : ['3', ':'].isPrefixOf line
            · rw [if_pos hp3] at hlp; cases hlp
            · rw [if_neg hp3]
              rw [if_neg hp3] at hlp
              by_cases hp2 : ['2', ':'].isPrefixOf line
              · rw [if_pos hp2]
                rw [if_pos hp2] at hlp
                have hpay : jsTrim (line.drop 2) ≠ [] := by
                  intro hcon
                  simp [hcon] at hlp
                rw [if_neg hpay]
                cases jparse (jsTrim (line.drop 2)) with
                | none => simp [pollOnce, hpred]
                | some v => simp [pollOnce, hpred]
              · rw [if_neg hp2]
                simp [pollOnce, hpred]
  · intro ls line hd
    exact handleLine_dirty pred now nowIso ls line hd
  · intro st c hd
    exact processChunk_dirty pred now nowIso st c hd
  · intro chunks
    exact runStream_no_stop_of_pred_false now nowIso chunks initMSt

/-- C8 witness: the text-delta line `0:"a"` is processed without a
poll, the data line `2:[]` polls a constantly-true predicate and
cancels, and a cancelled state ignores further chunks. -/
theorem c8_cancellation_witness :
    (handleLine (fun _ => true) [] [] ⟨[], 0, false, none⟩ "0:\"a\"".data).stopped =
        false ∧
    (handleLine (fun _ => true) [] [] ⟨[], 0, false, none⟩ "0:\"a\"".data).polls =
        0 ∧
    (handleLine (fun _ => true) [] [] ⟨[], 0, false, none⟩ "2:[]".data).stopped =
        true ∧
    processChunk (fun _ => true) [] [] ⟨[], ⟨[], 1, true, none⟩⟩ "0:\"b\"\n".data =
      ⟨[], ⟨[], 1, true, none⟩⟩ := by
  have h := c8_cancellation (fun _ => true) [] []
  have hclean : ¬ (⟨[], 0, false, none⟩ : LSt).dirty := by
    simp [LSt.dirty]
  refine ⟨(h.1 _ _ hclean (by decide)).1, (h.1 _ _ hclean (by decide)).2,
    h.2.1 _ _ hclean (by decide) rfl, h.2.2.2.1 _ _ (by simp [LSt.dirty])⟩

/-! ## The Session Driver (`ChatWorker`)

A projection of `ChatWorker.sendMessage` / `handleToolCall` /
`sendToolResult` and their stream callbacks. Conversation items are
projected onto the fields the driver inspects (`type`, `role`, `name`,
`callId`, `ok`, `appId`, `output.appId`, `createdAt`); the remote
endpoint is an oracle assigning to each upstream request (in call
order) either a non-ok response or a decoded event stream, optionally
ending in a raised exception (`consumeStream` rejecting mid-way);
`formatItem`/`formatCompact` rendering and the tool executor are
parameters (the executor's totality is claim C5); `recordHistory` and
`persistConfig` are external collaborators that return normally and
are omitted. The recursive tool-result resubmission has no bound in
the source; the embedding spends one unit of fuel per nested stream
and reports exhaustion in `fuelOut`. -/

/-- A conversation item, projected onto the fields the driver reads. -/
structure DItem where
  ty : Str
  role : Option Str := none
  name : Option Str := none
  callId : Option Str := none
  ok : Option Bool := none
  appIdF : Option Str := none
  outAppIdF : Option Str := none
  createdAt : Option Str := none
deriving DecidableEq

/-- A decoded stream event as the driver's callbacks see it. -/
inductive DEv where
  | convId (s : Str)
  | textDelta (s : Str)
  | items (xs : List DItem)
deriving DecidableEq

/-- One upstream chat request's outcome. -/
inductive OResp where
  | reqFail (msg : Str)
  | stream (evs : List DEv) (err : Option Str)
deriving DecidableEq

/-- A tool execution result as the driver renders it: `ok` plus the
`formatCompact` renderings of output and error (`none` when
`formatCompact` returned null). -/
structure TRes where
  ok : Bool
  outText : Option Str := none
  errText : Option Str := none
deriving DecidableEq

/-- The driver's collaborators. -/
structure DrvExts where
  fmt : DItem → Option Str
  exec : Nat → DItem → TRes
  oracle : Nat → OResp
  nowIso : Str

/-- The driver's per-session state. -/
structure DSt where
  items : List DItem
  lines : List Str
  streaming : Str
  streamShown : List Str
  convId : Option Str
  appId : Option Str
  builder : Bool
  execMode : Option Str
  token : Option Str
  reqIdx : Nat
  execCount : Nat
  fuelOut : Bool
deriving DecidableEq

/-- `this.appendLine(text)`. -/
def dAppendLine (st : DSt) (t : Str) : DSt := { st with lines := st.lines ++ [t] }

/-- `this.updateStreaming(text)`. -/
def updStreaming (st : DSt) (t : Str) : DSt :=
  { st with streaming := t, streamShown := st.streamShown ++ [t] }

/-- `this.clearStreaming()`. -/
def dClearStreaming (st : DSt) : DSt :=
  { st with streaming := [], streamShown := st.streamShown ++ [[]] }

/-- `this.config.executionMode ?? "local"` equals `"local"`. -/
def execLocal (st : DSt) : Prop := st.execMode.getD "local".data = "local".data

instance (st : DSt) : Decidable (execLocal st) := by
  unfold execLocal
  infer_instance

/-- The `onConversationId` callback of `sendMessage`: first writer
wins. -/
def onConvId (st : DSt) (cid : Str) : DSt :=
  match st.convId with
  | some _ => st
  | none => { st with convId := some cid }

/-- The scan of `maybeCaptureAppId`: the first item carrying a
non-empty string `appId` (directly or under `output`). -/
def captureScan : List DItem → Option Str
  | [] => none
  | i :: rest =>
    match i.appIdF with
    | some a =>
      if a ≠ [] then some a
      else
        match i.outAppIdF with
        | some b => if b ≠ [] then some b else captureScan rest
        | none => captureScan rest
    | none =>
      match i.outAppIdF with
      | some b => if b ≠ [] then some b else captureScan rest
      | none => captureScan rest

/-- `maybeCaptureAppId`: only acts while no app id is set. -/
def maybeCaptureAppId (st : DSt) (items : List DItem) : DSt :=
  match st.appId with
  | some _ => st
  | none =>
    match captureScan items with
    | some a =>
      { st with appId := some a, lines := st.lines ++ ["app linked: ".data ++ a] }
    | none => st

/-- `String.prototype.replace` with a plain-string pattern and empty
replacement: drop the first occurrence. -/
def removeFirstSub (pat : Str) : Str → Str
  | [] => []
  | c :: cs =>
    if pat.isPrefixOf (c :: cs) then (c :: cs).drop pat.length
    else c :: removeFirstSub pat cs

/-- `toolCall.name` interpolated into the tool_output line
(`undefined` when absent, as JS template literals render it). -/
def tcName (tc : DItem) : Str :=
  match tc.name with
  | some n => n
  | none => "undefined".data

/-- The `tool_output: <name> (ok|error) [error=…|output=…]` line
`handleToolCall` appends. -/
def toolOutputLine (tc : DItem) (res : TRes) : Str :=
  ("tool_output: ".data ++ tcName tc ++
    (if res.ok then " (ok)".data else " (error)".data)) ++
  (match res.errText with
   | some e => " error=".data ++ e
   | none =>
     match res.outText with
     | some o => " output=".data ++ o
     | none => [])

/-- The outcome of `sendToolResult`'s pre-stream phase: an early
return, or a decoded stream to fold (with the state after pushing the
tool_output and consuming the request). -/
inductive StrStep where
  | halt (st : DSt)
  | go (st : DSt) (evs : List DEv) (err : Option Str)

/-- The pre-stream phase of `ChatWorker.sendToolResult`: guards
(token, builder mode, a conversation id — a missing one drops the
tool_output with an error line), push the tool_output, and submit the
follow-up request; a non-ok response is surfaced as one
`request error:` line. -/
def strPrep (X : DrvExts) (st : DSt) (toolOut : DItem) : StrStep :=
  if st.token = none then StrStep.halt st
  else if st.builder = false then StrStep.halt st
  else
    match st.convId with
    | none =>
      StrStep.halt (dAppendLine st "tool_result error: missing conversation id".data)
    | some _ =>
      let st1 : DSt := { st with items := st.items ++ [toolOut] }
      if ¬ execLocal st1 then StrStep.halt st1
      else
        let st2 : DSt := { st1 with reqIdx := st1.reqIdx + 1 }
        match X.oracle st1.reqIdx with
        | OResp.reqFail msg =>
          StrStep.halt (dAppendLine st2 ("request error: ".data ++ msg))
        | OResp.stream evs err => StrStep.go st2 evs err

/-- The synchronous phase of `ChatWorker.handleToolCall`: guards
(token, builder mode, local execution, app id present — a missing app
id rejects the call with an error line and no `tool_output`), tool
execution, and the rendered tool_output line; `Sum.inr` carries the
state plus the built tool_output item to resubmit. -/
def htcPrep (X : DrvExts) (st : DSt) (tc : DItem) : DSt ⊕ (DSt × DItem) :=
  if st.token = none then Sum.inl st
  else if st.builder = false then Sum.inl st
  else if ¬ execLocal st then Sum.inl st
  else
    match st.appId with
    | none => Sum.inl (dAppendLine st "tool_call rejected: missing app id".data)
    | some _ =>
      let res := X.exec st.execCount tc
      let st1 : DSt := { st with execCount := st.execCount + 1 }
      Sum.inr (dAppendLine st1 (toolOutputLine tc res),
        { ty := "tool_output".data, callId := tc.callId, name := tc.name,
          ok := some res.ok, createdAt := some X.nowIso })

mutual

/-- Fold the decoded events of one response through the driver's
callbacks; `aFlavor` distinguishes `sendMessage`'s callback set (which
has `onConversationId` and the assistant-message streaming
special-case) from `sendToolResult`'s. -/
def procEvents (X : DrvExts) (fuel : Nat) (aFlavor : Bool) (st : DSt)
    (evs : List DEv) : DSt :=
  match evs with
  | [] => st
  | DEv.convId cid :: rest =>
    procEvents X fuel aFlavor (if aFlavor then onConvId st cid else st) rest
  | DEv.textDelta d :: rest =>
    procEvents X fuel aFlavor (updStreaming st (st.streaming ++ d)) rest
  | DEv.items xs :: rest =>
    procEvents X fuel aFlavor (procBatch X fuel aFlavor (maybeCaptureAppId st xs) xs) rest
termination_by (fuel, 4, evs.length)

/-- The `onItems` loop body: push each item, render it (assistant
messages refresh the live buffer in `sendMessage`'s flavor), and run
local tool execution for `tool_call` items. -/
def procBatch (X : DrvExts) (fuel : Nat) (aFlavor : Bool) (st : DSt)
    (xs : List DItem) : DSt :=
  match xs with
  | [] => st
  | i :: rest =>
    let st1 : DSt := { st with items := st.items ++ [i] }
    if aFlavor = true ∧ i.ty = "message".data ∧ i.role = some "assistant".data ∧
        (X.fmt i).isSome then
      procBatch X fuel aFlavor
        (updStreaming st1 (removeFirstSub "assistant: ".data ((X.fmt i).getD []))) rest
    else
      let st2 := match X.fmt i with
                 | some f => dAppendLine st1 f
                 | none => st1
      let st3 := if i.ty = "tool_call".data then handleToolCall X fuel st2 i else st2
      procBatch X fuel aFlavor st3 rest
termination_by (fuel, 3, xs.length)

/-- `ChatWorker.handleToolCall`: the synchronous phase, then
`sendToolResult` on the built tool_output. -/
def handleToolCall (X : DrvExts) (fuel : Nat) (st : DSt) (tc : DItem) : DSt :=
  match htcPrep X st tc with
  | Sum.inl st' => st'
  | Sum.inr (st', toolOut) => sendToolResult X fuel st' toolOut
termination_by (fuel, 2, 0)

/-- `ChatWorker.sendToolResult`: the pre-stream phase, then the
follow-up turn's stream decoded recursively through the shared turn
tail. -/
def sendToolResult (X : DrvExts) (fuel : Nat) (st : DSt) (toolOut : DItem) : DSt :=
  match strPrep X st toolOut with
  | StrStep.halt st' => st'
  | StrStep.go st2 evs err =>
    match fuel with
    | 0 => { st2 with fuelOut := true }
    | fuel' + 1 => turnFinish X fuel' false st2 evs err
termination_by (fuel, 1, 0)

/-- The shared tail of a decoded turn (`sendMessage` and
`sendToolResult` repeat it verbatim in the source): fold the events;
a raised stream error surfaces as one `stream error:` line with the
live buffer cleared (the partial text is not flushed), while a clean
completion flushes non-blank accumulated text as one `assistant:`
line before clearing. -/
def turnFinish (X : DrvExts) (fuel : Nat) (aFlavor : Bool) (st : DSt)
    (evs : List DEv) (err : Option Str) : DSt :=
  match err with
  | some e =>
    dClearStreaming
      (dAppendLine (procEvents X fuel aFlavor st evs) ("stream error: ".data ++ e))
  | none =>
    dClearStreaming
      (if jsTrim (procEvents X fuel aFlavor st evs).streaming ≠ [] then
        dAppendLine (procEvents X fuel aFlavor st evs)
          ("assistant: ".data ++ (procEvents X fuel aFlavor st evs).streaming)
      else procEvents X fuel aFlavor st evs)
termination_by (fuel, 5, 0)

end

/-- The user message item `sendMessage` appends. -/
def userItem (X : DrvExts) : DItem :=
  { ty := "message".data, role := some "user".data, createdAt := some X.nowIso }

/-- `ChatWorker.sendMessage`: require a token, append the user item and
line, submit, and decode the response through the shared turn tail
(after clearing the live buffer). -/
def sendMessage (X : DrvExts) (fuel : Nat) (st : DSt) (text : Str) : DSt :=
  match st.token with
  | none => dAppendLine st "login required".data
  | some _ =>
    let st1 : DSt := dAppendLine { st with items := st.items ++ [userItem X] }
      ("user: ".data ++ text)
    let st2 : DSt := { st1 with reqIdx := st1.reqIdx + 1 }
    match X.oracle st1.reqIdx with
    | OResp.reqFail msg => dAppendLine st2 ("request error: ".data ++ msg)
    | OResp.stream evs err =>
      match fuel with
      | 0 => { dClearStreaming st2 with fuelOut := true }
      | fuel' + 1 => turnFinish X fuel' true (dClearStreaming st2) evs err

/-- Unfolding a streamed `sendMessage` turn (with a token and at least
one unit of fuel) into the shared turn tail. -/
theorem sendMessage_stream (X : DrvExts) (fuel : Nat) (st : DSt)
    (text : Str) (tk : Str) (evs : List DEv) (err : Option Str)
    (htok : st.token = some tk)
    (hresp : X.oracle st.reqIdx = OResp.stream evs err) :
    sendMessage X (fuel + 1) st text =
      turnFinish X fuel true
        (dClearStreaming
          { st with items := st.items ++ [userItem X],
                    lines := st.lines ++ ["user: ".data ++ text],
                    reqIdx := st.reqIdx + 1 })
        evs err := by
  unfold sendMessage
  rw [htok]
  simp only [dAppendLine]
  rw [hresp]

/-! ## Claim C6 — mid-stream failure handling (corrected)

In `sendMessage`, the flush of accumulated partial streaming text as
an `assistant:` line sits inside the `try`, after `consumeStream`
returns; the `catch` for a mid-stream failure appends one
`stream error:` line and *clears* the live buffer — the partial text
is discarded, not flushed. -/

/-- The driver used by the C6 concrete run: the endpoint streams one
text delta `Hi` and then fails. -/
def c6SampleX : DrvExts :=
  { fmt := fun _ => none
    exec := fun _ _ => { ok := true }
    oracle := fun _ => OResp.stream [DEv.textDelta "Hi".data] (some "boom".data)
    nowIso := [] }

/-- A logged-in builder session with app and conversation ids. -/
def c6SampleSt : DSt :=
  { items := [], lines := [], streaming := [], streamShown := [],
    convId := some "c1".data, appId := some "a1".data, builder := true,
    execMode := none, token := some "t".data, reqIdx := 0, execCount := 0,
    fuelOut := false }

/-- C6 counterexample. In a turn whose stream emits the text delta
`Hi` (visible in the live-buffer history) and then fails, the driver
surfaces the error line but does **not** flush the accumulated partial
text as an assistant message: the final transcript lines are exactly
the user line and the stream-error line, with no `assistant: Hi`,
contradicting the claim that truncated answers are flushed. -/
theorem c6_partial_flush_counterexample :
    (sendMessage c6SampleX 1 c6SampleSt "hello".data).lines =
      ["user: hello".data, "stream error: boom".data] ∧
    (sendMessage c6SampleX 1 c6SampleSt "hello".data).streamShown =
      [[], "Hi".data, []] ∧
    "assistant: Hi".data ∉ (sendMessage c6SampleX 1 c6SampleSt "hello".data).lines := by
  refine ⟨?_, ?_, ?_⟩ <;>
    simp +decide [sendMessage, c6SampleX, c6SampleSt, procEvents, procBatch,
      turnFinish, userItem, updStreaming, dAppendLine, dClearStreaming,
      onConvId, maybeCaptureAppId, captureScan, jsTrim]

/-- The items delivered by a list of decoded events. -/
def evItems : List DEv → List DItem
  | [] => []
  | DEv.items xs :: rest => xs ++ evItems rest
  | _ :: rest => evItems rest

theorem isPrefixOf_append_self (l t : Str) : l.isPrefixOf (l ++ t) = true := by
  induction l with
  | nil => simp [List.isPrefixOf]
  | cons c cs ih => simp [List.isPrefixOf, ih]

theorem isPrefixOf_false_of_head {a b : Char} (h : (a == b) = false)
    (pa pb : Str) : ((a :: pa).isPrefixOf (b :: pb)) = false := by
  simp [List.isPrefixOf, h]

theorem isPrefixOf_false_of_second {a : Char} {c d : Char}
    (h : (c == d) = false) (pa pb : Str) :
    ((a :: c :: pa).isPrefixOf (a :: d :: pb)) = false := by
  simp [List.isPrefixOf, h]

/-- Lines appended by the `onItems` item loop all come from
`formatItem`, and the items pushed are exactly the batch (when the
batch holds no `tool_call`, no nested turn runs). -/
theorem procBatch_no_tool (X : DrvExts) (fuel : Nat) (flavor : Bool) :
    ∀ (xs : List DItem) (st : DSt), (∀ i ∈ xs, i.ty ≠ "tool_call".data) →
      (procBatch X fuel flavor st xs).items = st.items ++ xs ∧
      ∃ added, (procBatch X fuel flavor st xs).lines = st.lines ++ added ∧
        ∀ l ∈ added, ∃ i, X.fmt i = some l := by
  intro xs
  induction xs with
  | nil =>
    intro st h
    refine ⟨by simp [procBatch], [], by simp [procBatch], by simp⟩
  | cons i rest ih =>
    intro st h
    have hi : i.ty ≠ "tool_call".data := h i (List.mem_cons_self _ _)
    have hrest : ∀ j ∈ rest, j.ty ≠ "tool_call".data :=
      fun j hj => h j (List.mem_cons_of_mem _ hj)
    rw [procBatch]
    by_cases hsp : flavor = true ∧ i.ty = "message".data ∧
        i.role = some "assistant".data ∧ (X.fmt i).isSome
    · rw [if_pos hsp]
      obtain ⟨h1, added, h2, h3⟩ := ih _ hrest
      refine ⟨?_, added, ?_, h3⟩
      · rw [h1]
        simp [updStreaming]
      · rw [h2]
        simp [updStreaming]
    · rw [if_neg hsp]
      cases hf : X.fmt i with
      | some f =>
        simp only [hf, if_neg hi]
        obtain ⟨h1, added, h2, h3⟩ := ih _ hrest
        refine ⟨?_, f :: added, ?_, ?_⟩
        · rw [h1]
          simp [dAppendLine]
        · rw [h2]
          simp [dAppendLine]
        · intro l hl
          rcases List.mem_cons.mp hl with rfl | hl2
          · exact ⟨i, hf⟩
          · exact h3 l hl2
      | none =>
        simp only [hf, if_neg hi]
        obtain ⟨h1, added, h2, h3⟩ := ih _ hrest
        refine ⟨?_, added, ?_, h3⟩
        · rw [h1]
          simp
        · rw [h2]

/-- Event processing without `tool_call` items appends exactly the
delivered items, and every appended line is a `formatItem` rendering
or an `app linked:` capture line. -/
theorem procEvents_no_tool (X : DrvExts) (fuel : Nat) (flavor : Bool) :
    ∀ (evs : List DEv) (st : DSt),
      (∀ xs, DEv.items xs ∈ evs → ∀ i ∈ xs, i.ty ≠ "tool_call".data) →
      (procEvents X fuel flavor st evs).items = st.items ++ evItems evs ∧
      ∃ added, (procEvents X fuel flavor st evs).lines = st.lines ++ added ∧
        ∀ l ∈ added, (∃ i, X.fmt i = some l) ∨
          ∃ a, l = "app linked: ".data ++ a := by
  intro evs
  induction evs with
  | nil =>
    intro st h
    refine ⟨by simp [procEvents, evItems], [], by simp [procEvents], by simp⟩
  | cons ev rest ih =>
    intro st h
    have hrest : ∀ xs, DEv.items xs ∈ rest → ∀ i ∈ xs, i.ty ≠ "tool_call".data :=
      fun xs hxs => h xs (List.mem_cons_of_mem _ hxs)
    cases ev with
    | convId cid =>
      rw [procEvents]
      obtain ⟨h1, added, h2, h3⟩ := ih (if flavor = true then onConvId st cid else st) hrest
      refine ⟨?_, added, ?_, h3⟩
      · rw [h1]
        by_cases hfl : flavor = true
        · simp only [if_pos hfl, onConvId]
          cases st.convId <;> simp [evItems]
        · simp [hfl, evItems]
      · rw [h2]
        by_cases hfl : flavor = true
        · simp only [if_pos hfl, onConvId]
          cases st.convId <;> simp
        · simp [hfl]
    | textDelta d =>
      rw [procEvents]
      obtain ⟨h1, added, h2, h3⟩ := ih (updStreaming st (st.streaming ++ d)) hrest
      refine ⟨?_, added, ?_, h3⟩
      · rw [h1]
        simp [updStreaming, evItems]
      · rw [h2]
        simp [updStreaming]
    | items xs =>
      rw [procEvents]
      have hxs : ∀ i ∈ xs, i.ty ≠ "tool_call".data :=
        h xs (List.mem_cons_self _ _)
      obtain ⟨b1, badded, b2, b3⟩ :=
        procBatch_no_tool X fuel flavor xs (maybeCaptureAppId st xs) hxs
      obtain ⟨h1, added, h2, h3⟩ :=
        ih (procBatch X fuel flavor (maybeCaptureAppId st xs) xs) hrest
      have hcap_items : (maybeCaptureAppId st xs).items = st.items := by
        unfold maybeCaptureAppId
        cases st.appId <;> simp
        cases captureScan xs <;> simp
      have hcap_lines : ∃ capAdd,
          (maybeCaptureAppId st xs).lines = st.lines ++ capAdd ∧
          ∀ l ∈ capAdd, ∃ a, l = "app linked: ".data ++ a := by
        unfold maybeCaptureAppId
        cases st.appId with
        | some v => exact ⟨[], by simp, by simp⟩
        | none =>
          cases hc : captureScan xs with
          | none => exact ⟨[], by simp, by simp⟩
          | some a =>
            exact ⟨["app linked: ".data ++ a], by simp, by
              intro l hl
              rcases List.mem_cons.mp hl with rfl | hl2
              · exact ⟨a, rfl⟩
              · cases hl2⟩
      obtain ⟨capAdd, hc1, hc2⟩ := hcap_lines
      refine ⟨?_, capAdd ++ badded ++ added, ?_, ?_⟩
      · rw [h1, b1, hcap_items]
        simp [evItems]
      · rw [h2, b2, hc1]
        simp
      · intro l hl
        rcases List.mem_append.mp hl with hl1 | hl3
        · rcases List.mem_append.mp hl1 with hl4 | hl5
          · exact Or.inr (hc2 l hl4)
          · exact Or.inl (b3 l hl5)
        · exact h3 l hl3

/-- C6 (amended). For every turn whose stream fails mid-way (and whose
decoded items trigger no local tool execution), the driver appends the
full decoded item history — the user item plus every delivered item,
nothing half-appended — surfaces exactly one `stream error:` line
(provided `formatItem` renderings do not themselves fake that prefix),
flushes **no** `assistant:` line, and clears the live streaming
buffer: the accumulated partial text is discarded, surviving only in
the live-buffer display history. -/
theorem c6_error_turn (X : DrvExts) (fuel : Nat) (st : DSt) (text : Str)
    (evs : List DEv) (e : Str) (tk : Str)
    (htok : st.token = some tk)
    (hresp : X.oracle st.reqIdx = OResp.stream evs (some e))
    (hnt : ∀ xs, DEv.items xs ∈ evs → ∀ i ∈ xs, i.ty ≠ "tool_call".data)
    (hfmt : ∀ i l, X.fmt i = some l →
      "stream error: ".data.isPrefixOf l = false ∧
      "assistant: ".data.isPrefixOf l = false) :
    (sendMessage X (fuel + 1) st text).items =
      st.items ++ [userItem X] ++ evItems evs ∧
    (sendMessage X (fuel + 1) st text).lines.countP
        (fun l => "stream error: ".data.isPrefixOf l) =
      st.lines.countP (fun l => "stream error: ".data.isPrefixOf l) + 1 ∧
    (sendMessage X (fuel + 1) st text).lines.countP
        (fun l => "assistant: ".data.isPrefixOf l) =
      st.lines.countP (fun l => "assistant: ".data.isPrefixOf l) ∧
    (sendMessage X (fuel + 1) st text).streaming = [] := by
  have hpse : "stream error: ".data = 's' :: "tream error: ".data := rfl
  have hpas : "assistant: ".data = 'a' :: 's' :: "sistant: ".data := rfl
  have huser_se : "stream error: ".data.isPrefixOf ("user: ".data ++ text) = false := by
    have h : "user: ".data ++ text = 'u' :: ("ser: ".data ++ text) := rfl
    rw [h, hpse]
    exact isPrefixOf_false_of_head (by decide) _ _
  have huser_as : "assistant: ".data.isPrefixOf ("user: ".data ++ text) = false := by
    have h : "user: ".data ++ text = 'u' :: ("ser: ".data ++ text) := rfl
    rw [h, hpas]
    exact isPrefixOf_false_of_head (by decide) _ _
  have happ_se : ∀ a : Str,
      "stream error: ".data.isPrefixOf ("app linked: ".data ++ a) = false := by
    intro a
    have h : "app linked: ".data ++ a = 'a' :: ("pp linked: ".data ++ a) := rfl
    rw [h, hpse]
    exact isPrefixOf_false_of_head (by decide) _ _
  have happ_as : ∀ a : Str,
      "assistant: ".data.isPrefixOf ("app linked: ".data ++ a) = false := by
    intro a
    have h : "app linked: ".data ++ a = 'a' :: 'p' :: ("p linked: ".data ++ a) := rfl
    rw [h, hpas]
    exact isPrefixOf_false_of_second (by decide) _ _
  have herr_se : "stream error: ".data.isPrefixOf ("stream error: ".data ++ e) = true :=
    isPrefixOf_append_self _ _
  have herr_as : "assistant: ".data.isPrefixOf ("stream error: ".data ++ e) = false := by
    have h : "stream error: ".data ++ e = 's' :: ("tream error: ".data ++ e) := rfl
    rw [h, hpas]
    exact isPrefixOf_false_of_head (by decide) _ _
  rw [sendMessage_stream X fuel st text tk evs (some e) htok hresp]
  set st3 : DSt := dClearStreaming
    { st with items := st.items ++ [userItem X],
              lines := st.lines ++ ["user: ".data ++ text],
              reqIdx := st.reqIdx + 1 } with hst3
  have hfin : turnFinish X fuel true st3 evs (some e) =
      dClearStreaming
        (dAppendLine (procEvents X fuel true st3 evs)
          ("stream error: ".data ++ e)) := by
    rw [turnFinish]
  rw [hfin]
  obtain ⟨hitems, added, hlines, hprop⟩ :=
    procEvents_no_tool X fuel true evs st3 hnt
  have hst3items : st3.items = st.items ++ [userItem X] := rfl
  have hst3lines : st3.lines = st.lines ++ ["user: ".data ++ text] := rfl
  have haddse : added.countP (fun l => "stream error: ".data.isPrefixOf l) = 0 := by
    rw [List.countP_eq_zero]
    intro l hl
    rcases hprop l hl with ⟨i, hi⟩ | ⟨a, rfl⟩
    · simp [(hfmt i l hi).1]
    · simp [happ_se a]
  have haddas : added.countP (fun l => "assistant: ".data.isPrefixOf l) = 0 := by
    rw [List.countP_eq_zero]
    intro l hl
    rcases hprop l hl with ⟨i, hi⟩ | ⟨a, rfl⟩
    · simp [(hfmt i l hi).2]
    · simp [happ_as a]
  refine ⟨?_, ?_, ?_, ?_⟩
  · show (procEvents X fuel true st3 evs).items = _
    rw [hitems, hst3items]
  · show ((procEvents X fuel true st3 evs).lines ++
      ["stream error: ".data ++ e]).countP _ = _
    rw [hlines, hst3lines]
    simp [List.countP_append, List.countP_cons, haddse, huser_se, herr_se]
  · show ((procEvents X fuel true st3 evs).lines ++
      ["stream error: ".data ++ e]).countP _ = _
    rw [hlines, hst3lines]
    simp [List.countP_append, List.countP_cons, haddas, huser_as, herr_as]
  · rfl

/-- C6 witness: the concrete failing turn of the counterexample run,
through the amended theorem — one stream-error line, no assistant
flush, the user item as the whole transcript, and a cleared buffer. -/
theorem c6_error_turn_witness :
    (sendMessage c6SampleX 1 c6SampleSt "hello".data).items =
      c6SampleSt.items ++ [userItem c6SampleX] ++
        evItems [DEv.textDelta "Hi".data] ∧
    (sendMessage c6SampleX 1 c6SampleSt "hello".data).lines.countP
        (fun l => "stream error: ".data.isPrefixOf l) =
      c6SampleSt.lines.countP (fun l => "stream error: ".data.isPrefixOf l) + 1 ∧
    (sendMessage c6SampleX 1 c6SampleSt "hello".data).lines.countP
        (fun l => "assistant: ".data.isPrefixOf l) =
      c6SampleSt.lines.countP (fun l => "assistant: ".data.isPrefixOf l) ∧
    (sendMessage c6SampleX 1 c6SampleSt "hello".data).streaming = [] :=
  c6_error_turn c6SampleX 0 c6SampleSt "hello".data
    [DEv.textDelta "Hi".data] "boom".data "t".data rfl rfl
    (by intro xs hxs; simp [c6SampleX] at hxs)
    (by intro i l hi; simp [c6SampleX] at hi)

/-! ## Claim C9 — tool_call / tool_output pairing (corrected)

`handleToolCall` rejects a `tool_call` with only an error line when
the app id is missing, and `sendToolResult` drops the built
`tool_output` when the conversation id is missing — in both cases the
`tool_call` item stays in the transcript unanswered. When token,
builder mode, local execution, app id and conversation id are all
present, the `tool_output` is pushed immediately after its
`tool_call` before anything else is appended. -/

/-- Transcripts in which every `tool_call` is immediately followed by
exactly one `tool_output` bearing its `callId`, and every
`tool_output` is such an answer: a sequence of plain items and
adjacent call/output pairs. -/
inductive Paired : List DItem → Prop
  | nil : Paired []
  | plain (i : DItem) (rest : List DItem) :
      i.ty ≠ "tool_call".data → i.ty ≠ "tool_output".data →
      Paired rest → Paired (i :: rest)
  | pair (tc out : DItem) (rest : List DItem) :
      tc.ty = "tool_call".data → out.ty = "tool_output".data →
      out.callId = tc.callId → Paired rest → Paired (tc :: out :: rest)

theorem paired_append_plain {xs : List DItem} {i : DItem} (h : Paired xs)
    (h1 : i.ty ≠ "tool_call".data) (h2 : i.ty ≠ "tool_output".data) :
    Paired (xs ++ [i]) := by
  induction h with
  | nil => exact Paired.plain i [] h1 h2 Paired.nil
  | plain j rest hj1 hj2 hp ih => exact Paired.plain j _ hj1 hj2 ih
  | pair tc out rest htc hout hcid hp ih => exact Paired.pair tc out _ htc hout hcid ih

theorem paired_append_pair {xs : List DItem} {tc out : DItem} (h : Paired xs)
    (h1 : tc.ty = "tool_call".data) (h2 : out.ty = "tool_output".data)
    (h3 : out.callId = tc.callId) : Paired (xs ++ [tc, out]) := by
  induction h with
  | nil => exact Paired.pair tc out [] h1 h2 h3 Paired.nil
  | plain j rest hj1 hj2 hp ih => exact Paired.plain j _ hj1 hj2 ih
  | pair tc2 out2 rest htc hout hcid hp ih => exact Paired.pair tc2 out2 _ htc hout hcid ih

/-- The session facts under which local tool execution proceeds: a
token, builder mode, local execution mode, an app id, and a
conversation id. -/
def goodSt (st : DSt) : Prop :=
  st.token ≠ none ∧ st.builder = true ∧ execLocal st ∧
    st.appId ≠ none ∧ st.convId ≠ none

/-- The remote endpoint never delivers `tool_output` items itself (the
driver is their only author). -/
def noServerOutputs (X : DrvExts) : Prop :=
  ∀ n evs err, X.oracle n = OResp.stream evs err →
    ∀ xs, DEv.items xs ∈ evs → ∀ i ∈ xs, i.ty ≠ "tool_output".data

theorem maybeCaptureAppId_of_appId {st : DSt} (h : st.appId ≠ none)
    (xs : List DItem) : maybeCaptureAppId st xs = st := by
  unfold maybeCaptureAppId
  cases ha : st.appId with
  | none => exact absurd ha h
  | some a => rfl

theorem onConvId_of_convId {st : DSt} (h : st.convId ≠ none) (cid : Str) :
    onConvId st cid = st := by
  unfold onConvId
  cases hc : st.convId with
  | none => exact absurd hc h
  | some c => rfl

/-- Invariant parts for the mutual driver functions, one per
function. -/
def strPart (X : DrvExts) (fuel : Nat) : Prop :=
  ∀ st toolOut, goodSt st → Paired (st.items ++ [toolOut]) →
    toolOut.ty = "tool_output".data →
    goodSt (sendToolResult X fuel st toolOut) ∧
    Paired (sendToolResult X fuel st toolOut).items

def htcPart (X : DrvExts) (fuel : Nat) : Prop :=
  ∀ st tc ys, goodSt st → tc.ty = "tool_call".data →
    st.items = ys ++ [tc] → Paired ys →
    goodSt (handleToolCall X fuel st tc) ∧
    Paired (handleToolCall X fuel st tc).items

def batchPart (X : DrvExts) (fuel : Nat) : Prop :=
  ∀ flavor xs st, goodSt st → Paired st.items →
    (∀ i ∈ xs, i.ty ≠ "tool_output".data) →
    goodSt (procBatch X fuel flavor st xs) ∧
    Paired (procBatch X fuel flavor st xs).items

def eventsPart (X : DrvExts) (fuel : Nat) : Prop :=
  ∀ flavor evs st, goodSt st → Paired st.items →
    (∀ xs, DEv.items xs ∈ evs → ∀ i ∈ xs, i.ty ≠ "tool_output".data) →
    goodSt (procEvents X fuel flavor st evs) ∧
    Paired (procEvents X fuel flavor st evs).items

def finishPart (X : DrvExts) (fuel : Nat) : Prop :=
  ∀ flavor st evs err, goodSt st → Paired st.items →
    (∀ xs, DEv.items xs ∈ evs → ∀ i ∈ xs, i.ty ≠ "tool_output".data) →
    goodSt (turnFinish X fuel flavor st evs err) ∧
    Paired (turnFinish X fuel flavor st evs err).items

theorem goodSt_mk {a b : DSt} (h : goodSt a) (ht : b.token = a.token)
    (hb : b.builder = a.builder) (he : b.execMode = a.execMode)
    (hap : b.appId = a.appId) (hcv : b.convId = a.convId) : goodSt b := by
  obtain ⟨h1, h2, h3, h4, h5⟩ := h
  refine ⟨?_, ?_, ?_, ?_, ?_⟩
  · rw [ht]; exact h1
  · rw [hb]; exact h2
  · unfold execLocal at h3 ⊢
    rw [he]
    exact h3
  · rw [hap]; exact h4
  · rw [hcv]; exact h5

theorem strPrep_good (X : DrvExts) (st : DSt) (toolOut : DItem)
    (hg : goodSt st) :
    (∃ msg, X.oracle st.reqIdx = OResp.reqFail msg ∧
      strPrep X st toolOut = StrStep.halt
        (dAppendLine { st with items := st.items ++ [toolOut],
                               reqIdx := st.reqIdx + 1 }
          ("request error: ".data ++ msg))) ∨
    (∃ evs err, X.oracle st.reqIdx = OResp.stream evs err ∧
      strPrep X st toolOut = StrStep.go
        { st with items := st.items ++ [toolOut], reqIdx := st.reqIdx + 1 }
        evs err) := by
  obtain ⟨htok, hb, hex, happ, hcv⟩ := hg
  have hex2 : st.execMode.getD "local".data = "local".data := hex
  cases hc : st.convId with
  | none => exact absurd hc hcv
  | some cv =>
    unfold strPrep
    rw [if_neg htok]
    rw [if_neg (by rw [hb]; simp)]
    rw [hc]
    rw [if_neg (by unfold execLocal; simp [hex2])]
    cases ho : X.oracle st.reqIdx with
    | reqFail msg => exact Or.inl ⟨msg, rfl, rfl⟩
    | stream evs err => exact Or.inr ⟨evs, err, rfl, rfl⟩

theorem htcPrep_good (X : DrvExts) (st : DSt) (tc : DItem) (hg : goodSt st) :
    htcPrep X st tc = Sum.inr
      (dAppendLine { st with execCount := st.execCount + 1 }
        (toolOutputLine tc (X.exec st.execCount tc)),
       { ty := "tool_output".data, callId := tc.callId, name := tc.name,
         ok := some (X.exec st.execCount tc).ok, createdAt := some X.nowIso }) := by
  obtain ⟨htok, hb, hex, happ, hcv⟩ := hg
  have hex2 : st.execMode.getD "local".data = "local".data := hex
  cases ha : st.appId with
  | none => exact absurd ha happ
  | some a =>
    unfold htcPrep
    rw [if_neg htok]
    rw [if_neg (by rw [hb]; simp)]
    rw [if_neg (by unfold execLocal; simp [hex2])]
    rw [ha]

theorem strPart_zero (X : DrvExts) : strPart X 0 := by
  intro st toolOut hg hp hty
  rw [sendToolResult]
  rcases strPrep_good X st toolOut hg with ⟨msg, -, hpr⟩ | ⟨evs, err, -, hpr⟩
  · rw [hpr]
    exact ⟨goodSt_mk hg rfl rfl rfl rfl rfl, hp⟩
  · rw [hpr]
    exact ⟨goodSt_mk hg rfl rfl rfl rfl rfl, hp⟩

theorem strPart_succ (X : DrvExts) (fuel : Nat) (hX : noServerOutputs X)
    (hfin : finishPart X fuel) : strPart X (fuel + 1) := by
  intro st toolOut hg hp hty
  rw [sendToolResult]
  rcases strPrep_good X st toolOut hg with ⟨msg, -, hpr⟩ | ⟨evs, err, ho, hpr⟩
  · rw [hpr]
    exact ⟨goodSt_mk hg rfl rfl rfl rfl rfl, hp⟩
  · rw [hpr]
    have hg2 : goodSt
        ({ st with items := st.items ++ [toolOut], reqIdx := st.reqIdx + 1 } : DSt) :=
      goodSt_mk hg rfl rfl rfl rfl rfl
    exact hfin false _ evs err hg2 hp (hX st.reqIdx evs err ho)

theorem htc_of_str (X : DrvExts) (fuel : Nat) (hstr : strPart X fuel) :
    htcPart X fuel := by
  intro st tc ys hg hty hitems hpy
  rw [handleToolCall]
  rw [htcPrep_good X st tc hg]
  apply hstr
  · exact goodSt_mk hg rfl rfl rfl rfl rfl
  · show Paired (st.items ++ [_])
    rw [hitems, List.append_assoc]
    exact paired_append_pair hpy hty rfl rfl
  · rfl

theorem batch_of_htc (X : DrvExts) (fuel : Nat) (hhtc : htcPart X fuel) :
    batchPart X fuel := by
  intro flavor xs
  induction xs with
  | nil =>
    intro st hg hp hno
    rw [procBatch]
    exact ⟨hg, hp⟩
  | cons i rest ih =>
    intro st hg hp hno
    have hni : i.ty ≠ "tool_output".data := hno i (List.mem_cons_self _ _)
    have hnr : ∀ j ∈ rest, j.ty ≠ "tool_output".data :=
      fun j hj => hno j (List.mem_cons_of_mem _ hj)
    rw [procBatch]
    by_cases hsp : flavor = true ∧ i.ty = "message".data ∧
        i.role = some "assistant".data ∧ (X.fmt i).isSome
    · simp only [if_pos hsp]
      apply ih
      · exact goodSt_mk hg rfl rfl rfl rfl rfl
      · show Paired (st.items ++ [i])
        exact paired_append_plain hp (by rw [hsp.2.1]; decide) hni
      · exact hnr
    · simp only [if_neg hsp]
      cases hf : X.fmt i with
      | some f =>
        simp only [hf]
        by_cases htc : i.ty = "tool_call".data
        · simp only [if_pos htc]
          have h2 := hhtc (dAppendLine { st with items := st.items ++ [i] } f) i
            st.items (goodSt_mk hg rfl rfl rfl rfl rfl) htc rfl hp
          exact ih _ h2.1 h2.2 hnr
        · simp only [if_neg htc]
          apply ih
          · exact goodSt_mk hg rfl rfl rfl rfl rfl
          · show Paired (st.items ++ [i])
            exact paired_append_plain hp htc hni
          · exact hnr
      | none =>
        simp only [hf]
        by_cases htc : i.ty = "tool_call".data
        · simp only [if_pos htc]
          have h2 := hhtc ({ st with items := st.items ++ [i] } : DSt) i
            st.items (goodSt_mk hg rfl rfl rfl rfl rfl) htc rfl hp
          exact ih _ h2.1 h2.2 hnr
        · simp only [if_neg htc]
          apply ih
          · exact goodSt_mk hg rfl rfl rfl rfl rfl
          · show Paired (st.items ++ [i])
            exact paired_append_plain hp htc hni
          · exact hnr

theorem events_of_batch (X : DrvExts) (fuel : Nat) (hb : batchPart X fuel) :
    eventsPart X fuel := by
  intro flavor evs
  induction evs with
  | nil =>
    intro st hg hp hno
    rw [procEvents]
    exact ⟨hg, hp⟩
  | cons ev rest ih =>
    intro st hg hp hno
    have hnr : ∀ xs, DEv.items xs ∈ rest → ∀ i ∈ xs, i.ty ≠ "tool_output".data :=
      fun xs hxs => hno xs (List.mem_cons_of_mem _ hxs)
    cases ev with
    | convId cid =>
      rw [procEvents]
      have hid : (if flavor = true then onConvId st cid else st) = st := by
        by_cases hfl : flavor = true
        · rw [if_pos hfl, onConvId_of_convId hg.2.2.2.2]
        · rw [if_neg hfl]
      rw [hid]
      exact ih st hg hp hnr
    | textDelta d =>
      rw [procEvents]
      apply ih
      · exact goodSt_mk hg rfl rfl rfl rfl rfl
      · show Paired st.items
        exact hp
      · exact hnr
    | items xs =>
      rw [procEvents]
      rw [maybeCaptureAppId_of_appId hg.2.2.2.1 xs]
      have h2 := hb flavor xs st hg hp (hno xs (List.mem_cons_self _ _))
      exact ih _ h2.1 h2.2 hnr

theorem finish_of_events (X : DrvExts) (fuel : Nat) (he : eventsPart X fuel) :
    finishPart X fuel := by
  intro flavor st evs err hg hp hno
  obtain ⟨hg2, hp2⟩ := he flavor evs st hg hp hno
  cases err with
  | some e =>
    rw [turnFinish]
    constructor
    · exact goodSt_mk hg2 rfl rfl rfl rfl rfl
    · show Paired (procEvents X fuel flavor st evs).items
      exact hp2
  | none =>
    rw [turnFinish]
    by_cases hstr : jsTrim (procEvents X fuel flavor st evs).streaming ≠ []
    · simp only [if_pos hstr]
      constructor
      · exact goodSt_mk hg2 rfl rfl rfl rfl rfl
      · show Paired (procEvents X fuel flavor st evs).items
        exact hp2
    · simp only [if_neg hstr]
      constructor
      · exact goodSt_mk hg2 rfl rfl rfl rfl rfl
      · show Paired (procEvents X fuel flavor st evs).items
        exact hp2

theorem strPart_all (X : DrvExts) (hX : noServerOutputs X) :
    ∀ fuel, strPart X fuel := by
  intro fuel
  induction fuel with
  | zero => exact strPart_zero X
  | succ f ih =>
    exact strPart_succ X f hX
      (finish_of_events X f (events_of_batch X f (batch_of_htc X f (htc_of_str X f ih))))

theorem finishPart_all (X : DrvExts) (hX : noServerOutputs X) :
    ∀ fuel, finishPart X fuel := fun fuel =>
  finish_of_events X fuel
    (events_of_batch X fuel (batch_of_htc X fuel (htc_of_str X fuel (strPart_all X hX fuel))))

/-- Unfolding a `sendMessage` turn whose request is rejected. -/
theorem sendMessage_reqFail (X : DrvExts) (fuel : Nat) (st : DSt)
    (text : Str) (tk msg : Str)
    (htok : st.token = some tk)
    (hresp : X.oracle st.reqIdx = OResp.reqFail msg) :
    sendMessage X fuel st text =
      dAppendLine
        { st with items := st.items ++ [userItem X],
                  lines := st.lines ++ ["user: ".data ++ text],
                  reqIdx := st.reqIdx + 1 }
        ("request error: ".data ++ msg) := by
  unfold sendMessage
  rw [htok]
  simp only [dAppendLine]
  rw [hresp]

/-- Unfolding a streamed `sendMessage` turn with no fuel left. -/
theorem sendMessage_zero_stream (X : DrvExts) (st : DSt) (text : Str)
    (tk : Str) (evs : List DEv) (err : Option Str)
    (htok : st.token = some tk)
    (hresp : X.oracle st.reqIdx = OResp.stream evs err) :
    sendMessage X 0 st text =
      { dClearStreaming
          { st with items := st.items ++ [userItem X],
                    lines := st.lines ++ ["user: ".data ++ text],
                    reqIdx := st.reqIdx + 1 } with fuelOut := true } := by
  unfold sendMessage
  rw [htok]
  simp only [dAppendLine]
  rw [hresp]

/-- C9 (amended). In local execution mode with a token, an app id and
a conversation id present, and a remote endpoint that never delivers
`tool_output` items itself, every turn preserves the paired-transcript
shape: each `tool_call` item is immediately followed by exactly one
`tool_output` item bearing its `callId` (and every `tool_output` is
such an answer), before the turn — and hence the next user turn —
completes; the session facts are preserved as well. -/
theorem c9_tool_call_pairing (X : DrvExts) (fuel : Nat) (st : DSt)
    (text : Str) (hX : noServerOutputs X) (hg : goodSt st)
    (hp : Paired st.items) :
    Paired (sendMessage X fuel st text).items ∧
    goodSt (sendMessage X fuel st text) := by
  cases ht : st.token with
  | none => exact absurd ht hg.1
  | some tk =>
    have hpu : Paired (st.items ++ [userItem X]) :=
      paired_append_plain hp (by simp only [userItem]; decide)
        (by simp only [userItem]; decide)
    cases ho : X.oracle st.reqIdx with
    | reqFail msg =>
      rw [sendMessage_reqFail X fuel st text tk msg ht ho]
      exact ⟨hpu, goodSt_mk hg rfl rfl rfl rfl rfl⟩
    | stream evs err =>
      cases fuel with
      | zero =>
        rw [sendMessage_zero_stream X st text tk evs err ht ho]
        exact ⟨hpu, goodSt_mk hg rfl rfl rfl rfl rfl⟩
      | succ f =>
        rw [sendMessage_stream X f st text tk evs err ht ho]
        have h2 := finishPart_all X hX f true
          (dClearStreaming
            { st with items := st.items ++ [userItem X],
                      lines := st.lines ++ ["user: ".data ++ text],
                      reqIdx := st.reqIdx + 1 })
          evs err (goodSt_mk hg rfl rfl rfl rfl rfl) hpu
          (hX st.reqIdx evs err ho)
        exact ⟨h2.2, h2.1⟩

/-- The tool_call item the C9 concrete runs receive from the wire. -/
def c9SampleTC : DItem :=
  { ty := "tool_call".data, callId := some "call1".data, name := some "grep".data }

/-- A driver whose endpoint answers every request with that one
tool_call item. -/
def c9SampleX : DrvExts :=
  { fmt := fun _ => none
    exec := fun _ _ => { ok := true }
    oracle := fun _ => OResp.stream [DEv.items [c9SampleTC]] none
    nowIso := [] }

/-- A logged-in local builder session with **no app id**. -/
def c9NoAppSt : DSt :=
  { items := [], lines := [], streaming := [], streamShown := [],
    convId := some "c1".data, appId := none, builder := true,
    execMode := none, token := some "t".data, reqIdx := 0, execCount := 0,
    fuelOut := false }

/-- C9 counterexample. In local execution mode with no app id set, a
`tool_call` delivered by the stream is appended to the transcript and
then rejected with only an error line: the final transcript is the
user item followed by the unanswered `tool_call`, with no
`tool_output` at all — the claim that every appended `tool_call` is
answered by exactly one `tool_output` fails. -/
theorem c9_unanswered_counterexample :
    (sendMessage c9SampleX 2 c9NoAppSt "go".data).items =
      [userItem c9SampleX, c9SampleTC] ∧
    "tool_call rejected: missing app id".data ∈
      (sendMessage c9SampleX 2 c9NoAppSt "go".data).lines := by
  constructor <;>
    simp +decide [sendMessage, c9SampleX, c9NoAppSt, c9SampleTC, userItem,
      procEvents, procBatch, handleToolCall, htcPrep, sendToolResult, strPrep,
      turnFinish, maybeCaptureAppId, captureScan, onConvId, updStreaming,
      dAppendLine, dClearStreaming, jsTrim, execLocal, toolOutputLine, tcName]

/-- The same session with the app id present. -/
def c9GoodSt : DSt :=
  { items := [], lines := [], streaming := [], streamShown := [],
    convId := some "c1".data, appId := some "a1".data, builder := true,
    execMode := none, token := some "t".data, reqIdx := 0, execCount := 0,
    fuelOut := false }

/-- C9 witness: with the app id and conversation id present, the same
endpoint behavior yields a paired transcript — every tool_call
immediately answered by its tool_output. -/
theorem c9_tool_call_pairing_witness :
    Paired (sendMessage c9SampleX 2 c9GoodSt "go".data).items ∧
    goodSt (sendMessage c9SampleX 2 c9GoodSt "go".data) :=
  c9_tool_call_pairing c9SampleX 2 c9GoodSt "go".data
    (by
      intro n evs err h
      simp [c9SampleX] at h
      obtain ⟨h1, h2⟩ := h
      subst h1
      intro xs hxs
      simp at hxs
      subst hxs
      intro i hi
      simp at hi
      subst hi
      decide)
    (by
      refine ⟨?_, rfl, ?_, ?_, ?_⟩ <;> simp [c9GoodSt, execLocal])
    Paired.nil

end OpenPond
